import Mathlib

/-!
Shallow embedding of the `db-engine` storage stack, B-tree index and
executor (source: `src/db_engine/*.py`), with theorems settling the
frozen claims about the natural-language specification.

Machine integers are modelled as `Nat`/`Int` with explicit `% 2^w`
where the Python `struct` module would overflow-check; byte strings are
`List Nat` (each entry a byte value `< 256`); fallible Python code
(raising exceptions) is modelled with `Option`/`Except`.
-/

namespace DB

/-! ### Configuration constants (src/config.py) -/

def PAGE_SIZE : Nat := 8192
def PAGE_HEADER_SIZE : Nat := 16
def HEAP_FILE_HEADER_SIZE : Nat := 32
def BTREE_ORDER : Nat := 4
def NODE_SIZE : Nat := 4096
def INDEX_TEXT_MAX_LENGTH : Nat := 10
def INT_SIZE : Nat := 4
def BIGINT_SIZE : Nat := 8
def FLOAT_SIZE : Nat := 8
def BOOL_SIZE : Nat := 1
def TIMESTAMP_SIZE : Nat := 8
def MAX_TEXT_SIZE : Nat := 10240
def MAX_TUPLE_SIZE : Nat := 65535

/-! ### Little-endian byte encodings (Python `struct.pack`/`unpack`) -/

/-- `k` little-endian bytes of the natural number `m` (`struct.pack`
with an unsigned format, assuming `m < 2^(8*k)`). -/
def natToLE : Nat → Nat → List Nat
  | 0, _ => []
  | k + 1, m => (m % 256) :: natToLE k (m / 256)

/-- Value of a little-endian byte string (`struct.unpack`, unsigned). -/
def leToNat : List Nat → Nat
  | [] => 0
  | b :: bs => b + 256 * leToNat bs

theorem natToLE_length (k m : Nat) : (natToLE k m).length = k := by
  induction k generalizing m with
  | zero => rfl
  | succ k ih => simp [natToLE, ih]

theorem leToNat_natToLE (k m : Nat) (h : m < 2 ^ (8 * k)) :
    leToNat (natToLE k m) = m := by
  induction k generalizing m with
  | zero =>
    simp only [Nat.mul_zero, pow_zero, Nat.lt_one_iff] at h
    simp [h, natToLE, leToNat]
  | succ k ih =>
    have hdiv : m / 256 < 2 ^ (8 * k) := by
      have h256 : (256 : Nat) = 2 ^ 8 := by norm_num
      rw [Nat.div_lt_iff_lt_mul (by norm_num : 0 < 256)]
      calc m < 2 ^ (8 * (k + 1)) := h
        _ = 2 ^ (8 * k) * 256 := by rw [Nat.mul_succ, pow_add]; norm_num
    simp only [natToLE, leToNat, ih _ hdiv]
    omega

/-- Signed little-endian decode of `k` bytes (two's complement), as in
`struct.unpack` with a signed format. Returns the value and the rest of
the stream; fails when fewer than `k` bytes remain. -/
def decodeIntLE (k : Nat) (data : List Nat) : Option (Int × List Nat) :=
  if data.length < k then none
  else
    let m := leToNat (data.take k)
    let v : Int := if 2 ^ (8 * k - 1) ≤ m then (m : Int) - 2 ^ (8 * k) else (m : Int)
    some (v, data.drop k)

/-- Unsigned little-endian decode of `k` bytes (`struct.unpack` with an
unsigned format such as `'H'`). -/
def decodeNatLE (k : Nat) (data : List Nat) : Option (Nat × List Nat) :=
  if data.length < k then none
  else some (leToNat (data.take k), data.drop k)

/-- Signed little-endian encode of `n` over `k` bytes; the caller
checks the `struct.pack` range separately. -/
def encodeIntLE (k : Nat) (n : Int) : List Nat :=
  natToLE k (n % (2 ^ (8 * k) : Nat)).toNat

theorem encodeIntLE_length (k : Nat) (n : Int) :
    (encodeIntLE k n).length = k := natToLE_length _ _

theorem decodeIntLE_encodeIntLE (k : Nat) (hk : 0 < k) (n : Int)
    (hlo : -(2 ^ (8 * k - 1)) ≤ n) (hhi : n < 2 ^ (8 * k - 1))
    (rest : List Nat) :
    decodeIntLE k (encodeIntLE k n ++ rest) = some (n, rest) := by
  have hpos : (0 : Int) < (2 ^ (8 * k) : Nat) := by positivity
  have hmod_nonneg : 0 ≤ n % (2 ^ (8 * k) : Nat) := Int.emod_nonneg n (by positivity)
  have hmod_lt : n % (2 ^ (8 * k) : Nat) < (2 ^ (8 * k) : Nat) :=
    Int.emod_lt_of_pos n hpos
  have hlen : (encodeIntLE k n).length = k := encodeIntLE_length k n
  have htake : (encodeIntLE k n ++ rest).take k = encodeIntLE k n := by
    rw [List.take_append_of_le_length (by omega), List.take_of_length_le (by omega)]
  have hdrop : (encodeIntLE k n ++ rest).drop k = rest := by
    rw [List.drop_append_of_le_length (by omega), List.drop_of_length_le (by omega)]
    simp
  have hm : leToNat (encodeIntLE k n) = (n % (2 ^ (8 * k) : Nat)).toNat := by
    apply leToNat_natToLE
    omega
  rw [decodeIntLE]
  simp only [List.length_append, hlen, htake, hdrop, hm]
  rw [if_neg (by omega)]
  have hsplit : (8 : Nat) * k = (8 * k - 1) + 1 := by omega
  have hNpow : (2 : Nat) ^ (8 * k) = 2 * 2 ^ (8 * k - 1) := by
    conv_lhs => rw [hsplit]
    rw [pow_succ]; ring
  have hBA : ((2 ^ (8 * k - 1) : Nat) : Int) = 2 ^ (8 * k - 1) := by push_cast; ring
  have hpowNat : ((2 ^ (8 * k) : Nat) : Int) = 2 * ((2 ^ (8 * k - 1) : Nat) : Int) := by
    rw [hNpow]; push_cast; ring
  have hApos : (0 : Int) < ((2 ^ (8 * k - 1) : Nat) : Int) := by positivity
  have hX : n % ((2 ^ (8 * k) : Nat) : Int)
      = if 0 ≤ n then n else n + 2 * ((2 ^ (8 * k - 1) : Nat) : Int) := by
    split
    · refine Int.emod_eq_of_lt (by assumption) ?_
      rw [hpowNat]
      rw [← hBA] at hhi
      omega
    · rw [hpowNat]
      have h1 : n % (2 * ((2 ^ (8 * k - 1) : Nat) : Int))
          = (n + (2 * ((2 ^ (8 * k - 1) : Nat) : Int)) * 1) % (2 * ((2 ^ (8 * k - 1) : Nat) : Int)) := by
        rw [Int.add_mul_emod_self_left]
      rw [h1, mul_one]
      exact Int.emod_eq_of_lt (by rw [← hBA] at hlo; omega) (by rw [← hBA] at hhi; omega)
  have hIpow : (2 : Int) ^ (8 * k) = 2 * ((2 ^ (8 * k - 1) : Nat) : Int) := by
    rw [hBA]; conv_lhs => rw [hsplit]
    rw [pow_succ]; ring
  have hval : (if 2 ^ (8 * k - 1) ≤ (n % ((2 ^ (8 * k) : Nat) : Int)).toNat
      then ((n % ((2 ^ (8 * k) : Nat) : Int)).toNat : Int) - 2 ^ (8 * k)
      else ((n % ((2 ^ (8 * k) : Nat) : Int)).toNat : Int)) = n := by
    rw [hIpow, hX]
    rw [← hBA] at hlo hhi
    by_cases hsgn : 0 ≤ n
    · rw [if_pos hsgn]
      rw [if_neg (by omega)]
      omega
    · rw [if_neg hsgn]
      rw [if_pos (by omega)]
      omega
  rw [hval]

/-! ### Data model (src/db_engine/catalog.py) -/

/-- Column data types (config.SUPPORTED_TYPES). -/
inductive ColType
  | int
  | bigint
  | float
  | bool
  | timestamp
  | text
deriving DecidableEq, Repr

/-- A non-NULL column value. A FLOAT is embedded by its 8-byte IEEE-754
representation (Python `struct.pack('d', ...)` output), a TEXT by the
bytes of its UTF-8 encoding (`str.encode('utf-8')` output). -/
inductive SVal
  | vint (n : Int)
  | vbigint (n : Int)
  | vfloat (bs : List Nat)
  | vbool (b : Bool)
  | vtimestamp (n : Int)
  | vtext (bs : List Nat)
deriving DecidableEq, Repr

/-- catalog.ColumnDef. -/
structure ColumnDef where
  name : String
  datatype : ColType
  nullable : Bool
  uniqueFlag : Bool
deriving DecidableEq, Repr

/-- catalog.TableSchema (the fields tuple serialization depends on). -/
structure TableSchema where
  tableName : String
  columns : List ColumnDef
  primaryKey : List String
deriving DecidableEq, Repr

/-- TableSchema.has_nullable_columns. -/
def TableSchema.hasNullableColumns (s : TableSchema) : Bool :=
  s.columns.any (·.nullable)

/-- The `for i, col in enumerate(self.columns)` search loop of
TableSchema.get_column_index: index of the first column with the given
name. -/
def findColIdx (cols : List ColumnDef) (name : String) : Option Nat :=
  match cols with
  | [] => none
  | c :: cs => if c.name = name then some 0 else (findColIdx cs name).map (· + 1)

/-- TableSchema.get_column_index: position of the first column with the
given name; Python raises when the name is absent, modelled by `none`. -/
def TableSchema.getColumnIndex (s : TableSchema) (name : String) : Option Nat :=
  findColIdx s.columns name

/-! ### Tuple serialization (src/db_engine/storage.py, class Tuple) -/

/-- The value a nullable column's bit gets in the null bitmap:
`col_index >= len(self.values) or self.values[col_index] is None`. -/
def isNullValue (values : List (Option SVal)) (i : Nat) : Bool :=
  match values[i]? with
  | none => true
  | some v => v.isNone

/-- The per-nullable-column null flags, in schema column order, as built
by the bitmap loop of Tuple.serialize (the column's position is found by
get_column_index on its name). -/
def nullFlags (s : TableSchema) (values : List (Option SVal)) : List Bool :=
  (s.columns.filter (·.nullable)).map fun c =>
    match s.getColumnIndex c.name with
    | some i => isNullValue values i
    | none => true

/-- Value of a byte accumulated LSB-first from up to 8 bits
(`current_byte |= (1 << bit_position)`). -/
def bitsToNat : List Bool → Nat
  | [] => 0
  | b :: bs => (cond b 1 0) + 2 * bitsToNat bs

/-- Pack a bit list into bytes of 8 bits each, LSB-first, the trailing
partial byte zero-padded, exactly as Tuple.serialize builds
`bitmap_bytes`. -/
def packBits (bits : List Bool) : List Nat :=
  if h : bits = [] then []
  else bitsToNat (bits.take 8) :: packBits (bits.drop 8)
termination_by bits.length
decreasing_by
  have hpos : 0 < bits.length := List.length_pos.mpr h
  simp only [List.length_drop]
  omega

/-- Serialization of one non-NULL value for a column of the given type
(the per-type `struct.pack` arms of Tuple.serialize). `none` models a
raised exception: a `struct.pack` range error or a value whose Python
type does not fit the column's conversion. TEXT longer than
MAX_TEXT_SIZE bytes is silently truncated, as in the source. -/
def serializeValue : ColType → SVal → Option (List Nat)
  | .int, .vint n =>
      if -(2 ^ 31) ≤ n ∧ n < 2 ^ 31 then some (encodeIntLE INT_SIZE n) else none
  | .bigint, .vbigint n =>
      if -(2 ^ 63) ≤ n ∧ n < 2 ^ 63 then some (encodeIntLE BIGINT_SIZE n) else none
  | .float, .vfloat bs =>
      if bs.length = FLOAT_SIZE then some bs else none
  | .bool, .vbool b => some [cond b 1 0]
  | .timestamp, .vtimestamp n =>
      if -(2 ^ 63) ≤ n ∧ n < 2 ^ 63 then some (encodeIntLE TIMESTAMP_SIZE n) else none
  | .text, .vtext bs =>
      let bs' := bs.take MAX_TEXT_SIZE
      some (natToLE 2 bs'.length ++ bs')
  | _, _ => none

/-- The value-section of Tuple.serialize: concatenation of the non-NULL
values in schema column order (`values[i]` for column `i`; a missing or
`None` entry is skipped). -/
def serializeValues : List ColumnDef → List (Option SVal) → Option (List Nat)
  | [], _ => some []
  | _ :: cols, [] => serializeValues cols []
  | c :: cols, none :: vals => serializeValues cols vals
  | c :: cols, some v :: vals => do
      let bytes ← serializeValue c.datatype v
      let rest ← serializeValues cols vals
      pure (bytes ++ rest)

/-- Tuple.serialize: optional null bitmap (present iff the schema has a
nullable column) followed by the serialized non-NULL values. -/
def Tuple.serialize (schema : TableSchema) (values : List (Option SVal)) :
    Option (List Nat) := do
  let body ← serializeValues schema.columns values
  let bitmap := if schema.hasNullableColumns then packBits (nullFlags schema values) else []
  pure (bitmap ++ body)

/-- Bit test `null_bitmap[byte_index] & (1 << bit_index) != 0` of
Tuple.deserialize (accesses are in range whenever the source would not
raise IndexError; out-of-range bytes read as 0 here). -/
def testBitmap (bitmap : List Nat) (idx : Nat) : Bool :=
  Nat.testBit (bitmap.getD (idx / 8) 0) (idx % 8)

/-- Deserialization of one non-NULL value (the per-type `struct.unpack`
arms of Tuple.deserialize), consuming from the byte stream. TEXT uses
Python slice semantics (`data[offset:offset+n]` never raises). -/
def deserializeValue : ColType → List Nat → Option (SVal × List Nat)
  | .int, data => do
      let (n, rest) ← decodeIntLE INT_SIZE data
      pure (.vint n, rest)
  | .bigint, data => do
      let (n, rest) ← decodeIntLE BIGINT_SIZE data
      pure (.vbigint n, rest)
  | .float, data =>
      if data.length < FLOAT_SIZE then none
      else some (.vfloat (data.take FLOAT_SIZE), data.drop FLOAT_SIZE)
  | .bool, data =>
      match data with
      | [] => none
      | b :: rest => some (.vbool (b != 0), rest)
  | .timestamp, data => do
      let (n, rest) ← decodeIntLE TIMESTAMP_SIZE data
      pure (.vtimestamp n, rest)
  | .text, data => do
      let (len, rest) ← decodeNatLE 2 data  -- 'H': 2-byte unsigned length
      pure (.vtext (rest.take len), rest.drop len)

/-- The column loop of Tuple.deserialize: `nIdx` is the running
`nullable_index` into the bitmap (`if col.nullable and null_bitmap`
guards both the bit test and the index increment). -/
def deserializeCols : List ColumnDef → List Nat → Nat → List Nat →
    Option (List (Option SVal))
  | [], _, _, _ => some []
  | c :: cols, bitmap, nIdx, data =>
      cond (c.nullable && !bitmap.isEmpty && testBitmap bitmap nIdx)
        ((deserializeCols cols bitmap
            (cond (c.nullable && !bitmap.isEmpty) (nIdx + 1) nIdx) data).map
          (fun rest => none :: rest))
        ((deserializeValue c.datatype data).bind fun vd =>
          (deserializeCols cols bitmap
              (cond (c.nullable && !bitmap.isEmpty) (nIdx + 1) nIdx) vd.2).map
            (fun rest => some vd.1 :: rest))

/-- Tuple.deserialize: read the null bitmap byte-by-byte (IndexError on a
short input modelled by `none`), then the column values. -/
def Tuple.deserialize (data : List Nat) (schema : TableSchema) :
    Option (List (Option SVal)) :=
  let nullableCount := (schema.columns.filter (·.nullable)).length
  let bitmapSize := if schema.hasNullableColumns then (nullableCount + 7) / 8 else 0
  if data.length < bitmapSize then none
  else deserializeCols schema.columns (data.take bitmapSize) 0 (data.drop bitmapSize)

/-- A value fits a column type: the tag matches and the encodable ranges
of `struct.pack` hold (the "schema-consistent tuple" of the claim). -/
def typeOk : ColType → SVal → Bool
  | .int, .vint n => decide (-(2 ^ 31) ≤ n ∧ n < 2 ^ 31)
  | .bigint, .vbigint n => decide (-(2 ^ 63) ≤ n ∧ n < 2 ^ 63)
  | .float, .vfloat bs => decide (bs.length = FLOAT_SIZE ∧ ∀ b ∈ bs, b < 256)
  | .bool, .vbool _ => true
  | .timestamp, .vtimestamp n => decide (-(2 ^ 63) ≤ n ∧ n < 2 ^ 63)
  | .text, .vtext bs => decide (bs.length ≤ MAX_TEXT_SIZE ∧ ∀ b ∈ bs, b < 256)
  | _, _ => false

/-- Column-wise schema consistency: one value per column, `none` only in
nullable columns, each value fitting its column's type. -/
def consistentCols : List ColumnDef → List (Option SVal) → Bool
  | [], [] => true
  | c :: cols, none :: vals => c.nullable && consistentCols cols vals
  | c :: cols, some v :: vals => typeOk c.datatype v && consistentCols cols vals
  | _, _ => false

/-- A tuple is consistent with a schema: column names are distinct (so
name lookup in the bitmap loop agrees with position) and the values
match the columns. -/
def Consistent (schema : TableSchema) (values : List (Option SVal)) : Prop :=
  (schema.columns.map (·.name)).Nodup ∧ consistentCols schema.columns values = true

/-! ### Round-trip lemmas for tuple serialization -/

theorem testBit_bitsToNat : ∀ (bs : List Bool) (i : Nat),
    (bitsToNat bs).testBit i = bs.getD i false := by
  intro bs
  induction bs with
  | nil => intro i; simp [bitsToNat, Nat.zero_testBit, List.getD]
  | cons b bs ih =>
    intro i
    cases i with
    | zero =>
      rw [Nat.testBit_zero]
      cases b
      · simp only [bitsToNat, cond_false, List.getD_cons_zero, decide_eq_false_iff_not]
        omega
      · simp only [bitsToNat, cond_true, List.getD_cons_zero, decide_eq_true_eq]
        omega
    | succ i =>
      rw [Nat.testBit_succ, List.getD_cons_succ, ← ih i]
      have h2 : bitsToNat (b :: bs) / 2 = bitsToNat bs := by
        cases b <;> simp [bitsToNat] <;> omega
      rw [h2]

theorem testBitmap_packBits : ∀ (n : Nat) (bits : List Bool), bits.length ≤ n →
    ∀ j, j < bits.length → testBitmap (packBits bits) j = bits.getD j false := by
  intro n
  induction n with
  | zero => intro bits hb j hj; omega
  | succ n ih =>
    intro bits hb j hj
    have hne : bits ≠ [] := by
      intro h; subst h; simp at hj
    rw [packBits, dif_neg hne]
    by_cases hj8 : j < 8
    · have hdiv : j / 8 = 0 := Nat.div_eq_of_lt hj8
      have hmod : j % 8 = j := Nat.mod_eq_of_lt hj8
      rw [testBitmap, hdiv, hmod, List.getD_cons_zero, testBit_bitsToNat]
      simp [List.getD, List.getElem?_take_of_lt hj8]
    · have hdiv : j / 8 = (j - 8) / 8 + 1 := by omega
      have hmod : j % 8 = (j - 8) % 8 := by omega
      rw [testBitmap, hdiv, List.getD_cons_succ, hmod]
      have hrec := ih (bits.drop 8) (by simp only [List.length_drop]; omega)
        (j - 8) (by simp only [List.length_drop]; omega)
      rw [testBitmap] at hrec
      have harr : (bits.drop 8).getD (j - 8) false = bits.getD j false := by
        simp only [List.getD, List.get?_eq_getElem?, List.getElem?_drop]
        have h8 : 8 + (j - 8) = j := by omega
        rw [h8]
      rw [hrec, harr]

theorem packBits_length : ∀ (n : Nat) (bits : List Bool), bits.length ≤ n →
    (packBits bits).length = (bits.length + 7) / 8 := by
  intro n
  induction n with
  | zero =>
    intro bits hb
    have : bits = [] := List.length_eq_zero.mp (by omega)
    subst this
    simp [packBits]
  | succ n ih =>
    intro bits hb
    by_cases hne : bits = []
    · subst hne; simp [packBits]
    · rw [packBits, dif_neg hne]
      have hpos : 0 < bits.length := List.length_pos.mpr hne
      have hrec := ih (bits.drop 8) (by simp only [List.length_drop]; omega)
      simp only [List.length_cons, hrec, List.length_drop]
      omega

theorem deserializeValue_serializeValue (t : ColType) (v : SVal)
    (bytes rest : List Nat) (hok : typeOk t v = true)
    (hser : serializeValue t v = some bytes) :
    deserializeValue t (bytes ++ rest) = some (v, rest) := by
  cases t <;> cases v <;>
    simp only [typeOk, decide_eq_true_eq] at hok <;>
    try exact absurd hok (by decide)
  case int.vint n =>
    rw [serializeValue, if_pos hok] at hser
    injection hser with hb
    subst hb
    rw [deserializeValue, decodeIntLE_encodeIntLE INT_SIZE (by decide) n
      (by rw [show (8 : Nat) * INT_SIZE - 1 = 31 by decide]; exact hok.1)
      (by rw [show (8 : Nat) * INT_SIZE - 1 = 31 by decide]; exact hok.2)]
    rfl
  case bigint.vbigint n =>
    rw [serializeValue, if_pos hok] at hser
    injection hser with hb
    subst hb
    rw [deserializeValue, decodeIntLE_encodeIntLE BIGINT_SIZE (by decide) n
      (by rw [show (8 : Nat) * BIGINT_SIZE - 1 = 63 by decide]; exact hok.1)
      (by rw [show (8 : Nat) * BIGINT_SIZE - 1 = 63 by decide]; exact hok.2)]
    rfl
  case float.vfloat bs =>
    rw [serializeValue, if_pos hok.1] at hser
    injection hser with hb
    subst hb
    rw [deserializeValue, if_neg (by simp [hok.1, FLOAT_SIZE])]
    rw [List.take_append_of_le_length (by omega), List.take_of_length_le (by omega),
      List.drop_append_of_le_length (by omega), List.drop_of_length_le (by omega)]
    simp [hok.1]
  case bool.vbool b =>
    rw [serializeValue] at hser
    injection hser with hb
    subst hb
    cases b <;> rfl
  case timestamp.vtimestamp n =>
    rw [serializeValue, if_pos hok] at hser
    injection hser with hb
    subst hb
    rw [deserializeValue, decodeIntLE_encodeIntLE TIMESTAMP_SIZE (by decide) n
      (by rw [show (8 : Nat) * TIMESTAMP_SIZE - 1 = 63 by decide]; exact hok.1)
      (by rw [show (8 : Nat) * TIMESTAMP_SIZE - 1 = 63 by decide]; exact hok.2)]
    rfl
  case text.vtext bs =>
    rw [serializeValue] at hser
    injection hser with hb
    have htake : bs.take MAX_TEXT_SIZE = bs := List.take_of_length_le hok.1
    rw [htake] at hb
    subst hb
    rw [deserializeValue]
    have hn : leToNat (natToLE 2 bs.length) = bs.length := by
      apply leToNat_natToLE
      have := hok.1
      rw [MAX_TEXT_SIZE] at this
      norm_num
      omega
    have hlen2 : (natToLE 2 bs.length).length = 2 := natToLE_length _ _
    rw [List.append_assoc, decodeNatLE, if_neg (by simp [hlen2]),
      List.take_append_of_le_length (by omega), List.take_of_length_le (by omega),
      List.drop_append_of_le_length (by omega), List.drop_of_length_le (by omega)]
    simp only [List.nil_append, hn, Option.bind_eq_bind, Option.some_bind]
    rw [List.take_left, List.drop_left]
    rfl

/-- Structural reformulation of the null-flag list: one flag per
nullable column, reading the values positionally. Provably equal to
`nullFlags` when column names are distinct. -/
def zipNullFlags : List ColumnDef → List (Option SVal) → List Bool
  | [], _ => []
  | c :: cols, vals =>
    let flag := match vals.head? with
      | none => true
      | some v => v.isNone
    if c.nullable then flag :: zipNullFlags cols vals.tail
    else zipNullFlags cols vals.tail

theorem findColIdx_of_nodup : ∀ (cols : List ColumnDef),
    (cols.map (·.name)).Nodup → ∀ (i : Nat) (c : ColumnDef), cols[i]? = some c →
    findColIdx cols c.name = some i := by
  intro cols
  induction cols with
  | nil => intro _ i c hc; simp at hc
  | cons d cols ih =>
    intro hnd i c hc
    simp only [List.map_cons, List.nodup_cons] at hnd
    cases i with
    | zero =>
      simp only [List.getElem?_cons_zero, Option.some_inj] at hc
      subst hc
      rw [findColIdx, if_pos rfl]
    | succ i =>
      simp only [List.getElem?_cons_succ] at hc
      have hmem : c ∈ cols := by
        obtain ⟨hlt, rfl⟩ := List.getElem?_eq_some.mp hc
        exact List.getElem_mem hlt
      have hne : ¬ d.name = c.name := by
        intro he
        exact hnd.1 (he ▸ List.mem_map_of_mem (·.name) hmem)
      rw [findColIdx, if_neg hne, ih hnd.2 i c hc]
      rfl

theorem nullFlags_zip_aux (vals : List (Option SVal)) :
    ∀ (cols : List ColumnDef) (f : ColumnDef → Bool) (base : Nat),
    (∀ j c, cols[j]? = some c → f c = isNullValue vals (base + j)) →
    (cols.filter (·.nullable)).map f = zipNullFlags cols (vals.drop base) := by
  intro cols
  induction cols with
  | nil => intro f base _; simp [zipNullFlags]
  | cons c cols ih =>
    intro f base h
    have hhead : f c = isNullValue vals base := by
      have := h 0 c (by simp)
      simpa using this
    have htail := ih f (base + 1) (fun j d hd => by
      have := h (j + 1) d (by simpa using hd)
      rw [this]
      congr 1
      omega)
    have hflag : (match (vals.drop base).head? with
        | none => true
        | some v => v.isNone) = isNullValue vals base := by
      rw [List.head?_drop, isNullValue]
    by_cases hn : c.nullable
    · rw [List.filter_cons_of_pos (by simp [hn]), List.map_cons, zipNullFlags]
      simp only [hn, if_true, List.tail_drop, hflag, hhead]
      rw [htail]
    · rw [List.filter_cons_of_neg (by simp [hn]), zipNullFlags]
      have hnF : c.nullable = false := by simpa using hn
      simp [hnF, List.tail_drop, htail]

/-- With distinct column names the bitmap loop of Tuple.serialize reads
each nullable column's value at its own position. -/
theorem nullFlags_eq_zip (s : TableSchema) (vals : List (Option SVal))
    (h : (s.columns.map (·.name)).Nodup) :
    nullFlags s vals = zipNullFlags s.columns vals := by
  rw [nullFlags]
  have := nullFlags_zip_aux vals s.columns
    (fun c => match s.getColumnIndex c.name with
      | some i => isNullValue vals i
      | none => true) 0
    (fun j c hc => by
      simp only [TableSchema.getColumnIndex]
      rw [findColIdx_of_nodup s.columns h j c hc]
      simp)
  rw [this]
  simp

theorem zipNullFlags_length : ∀ (cols : List ColumnDef) (vals : List (Option SVal)),
    (zipNullFlags cols vals).length = (cols.filter (·.nullable)).length := by
  intro cols
  induction cols with
  | nil => intro vals; simp [zipNullFlags]
  | cons c cols ih =>
    intro vals
    by_cases hn : c.nullable
    · rw [zipNullFlags, List.filter_cons_of_pos (by simp [hn])]
      simp [hn, ih]
    · rw [zipNullFlags, List.filter_cons_of_neg (by simp [hn])]
      simp [hn, ih]

theorem serializeValue_some (t : ColType) (v : SVal) (hok : typeOk t v = true) :
    ∃ bytes, serializeValue t v = some bytes := by
  cases t <;> cases v <;>
    simp only [typeOk, decide_eq_true_eq] at hok <;>
    try exact absurd hok (by decide)
  case int.vint n => exact ⟨_, by rw [serializeValue, if_pos hok]⟩
  case bigint.vbigint n => exact ⟨_, by rw [serializeValue, if_pos hok]⟩
  case float.vfloat bs => exact ⟨_, by rw [serializeValue, if_pos hok.1]⟩
  case bool.vbool b => exact ⟨_, rfl⟩
  case timestamp.vtimestamp n => exact ⟨_, by rw [serializeValue, if_pos hok]⟩
  case text.vtext bs => exact ⟨_, rfl⟩

theorem serializeValues_some : ∀ (cols : List ColumnDef) (vals : List (Option SVal)),
    consistentCols cols vals = true → ∃ out, serializeValues cols vals = some out := by
  intro cols
  induction cols with
  | nil =>
    intro vals hc
    cases vals with
    | nil => exact ⟨[], rfl⟩
    | cons v vs => simp [consistentCols] at hc
  | cons c cols ih =>
    intro vals hc
    cases vals with
    | nil => simp [consistentCols] at hc
    | cons v vs =>
      cases v with
      | none =>
        simp only [consistentCols, Bool.and_eq_true] at hc
        exact ih vs hc.2
      | some v =>
        simp only [consistentCols, Bool.and_eq_true] at hc
        obtain ⟨bytes, hb⟩ := serializeValue_some c.datatype v hc.1
        obtain ⟨out, ho⟩ := ih vs hc.2
        exact ⟨bytes ++ out, by rw [serializeValues, hb, ho]; rfl⟩

theorem deserializeCols_roundtrip :
    ∀ (cols : List ColumnDef) (vals : List (Option SVal)) (bitmap : List Nat)
      (nIdx : Nat) (out rest : List Nat),
      consistentCols cols vals = true →
      serializeValues cols vals = some out →
      (∀ c ∈ cols, c.nullable = true → bitmap ≠ []) →
      (∀ j, j < (zipNullFlags cols vals).length →
        testBitmap bitmap (nIdx + j) = (zipNullFlags cols vals).getD j false) →
      deserializeCols cols bitmap nIdx (out ++ rest) = some vals := by
  intro cols
  induction cols with
  | nil =>
    intro vals bitmap nIdx out rest hcons hser _ _
    cases vals with
    | nil =>
      simp only [serializeValues, Option.some_inj] at hser
      subst hser
      rfl
    | cons v vs => simp [consistentCols] at hcons
  | cons c cols ih =>
    intro vals bitmap nIdx out rest hcons hser hbm hbit
    cases vals with
    | nil => simp [consistentCols] at hcons
    | cons v vs =>
      cases v with
      | none =>
        simp only [consistentCols, Bool.and_eq_true] at hcons
        obtain ⟨hnul, hcons'⟩ := hcons
        simp only [serializeValues] at hser
        have hbne : bitmap ≠ [] := hbm c (by simp) hnul
        have hbE : bitmap.isEmpty = false := by
          cases bitmap with
          | nil => exact absurd rfl hbne
          | cons b bs => rfl
        have hzip : zipNullFlags (c :: cols) (none :: vs) = true :: zipNullFlags cols vs := by
          rw [zipNullFlags]
          simp [hnul]
        rw [hzip] at hbit
        have hbit0 : testBitmap bitmap nIdx = true := by
          have := hbit 0 (by simp)
          simpa using this
        rw [deserializeCols]
        simp only [hnul, hbE, hbit0, Bool.not_false, Bool.true_and, Bool.and_true,
          Bool.and_self, cond_true]
        rw [ih vs bitmap (nIdx + 1) out rest hcons' hser
          (fun c' hc' hn' => hbm c' (List.mem_cons_of_mem c hc') hn')
          (fun j hj => by
            have := hbit (j + 1) (by simpa using hj)
            rw [show nIdx + (j + 1) = nIdx + 1 + j by omega] at this
            simpa using this)]
        rfl
      | some v =>
        simp only [consistentCols, Bool.and_eq_true] at hcons
        obtain ⟨htOk, hcons'⟩ := hcons
        obtain ⟨bytes, hbytes, out', hout', rfl⟩ :
            ∃ bytes, serializeValue c.datatype v = some bytes ∧
              ∃ out', serializeValues cols vs = some out' ∧ out = bytes ++ out' := by
          cases hb : serializeValue c.datatype v with
          | none => rw [serializeValues, hb] at hser; exact absurd hser (by simp)
          | some bytes =>
            cases ho : serializeValues cols vs with
            | none => rw [serializeValues, hb, ho] at hser; exact absurd hser (by simp)
            | some out' =>
              rw [serializeValues, hb, ho] at hser
              simp only [Option.pure_def, Option.bind_eq_bind, Option.some_bind,
                Option.some_inj] at hser
              exact ⟨bytes, rfl, out', rfl, hser.symm⟩
        have hdesv : deserializeValue c.datatype ((bytes ++ out') ++ rest)
            = some (v, out' ++ rest) := by
          rw [List.append_assoc]
          exact deserializeValue_serializeValue c.datatype v bytes (out' ++ rest) htOk hbytes
        by_cases hnul : c.nullable
        · have hbne : bitmap ≠ [] := hbm c (by simp) hnul
          have hbE : bitmap.isEmpty = false := by
            cases bitmap with
            | nil => exact absurd rfl hbne
            | cons b bs => rfl
          have hzip : zipNullFlags (c :: cols) (some v :: vs)
              = false :: zipNullFlags cols vs := by
            rw [zipNullFlags]
            simp [hnul]
          rw [hzip] at hbit
          have hbit0 : testBitmap bitmap nIdx = false := by
            have := hbit 0 (by simp)
            simpa using this
          rw [deserializeCols]
          simp only [hnul, hbE, hbit0, Bool.not_false, Bool.true_and, Bool.and_true,
            Bool.and_false, cond_true, cond_false]
          rw [hdesv]
          simp only [Option.bind_eq_bind, Option.some_bind]
          rw [ih vs bitmap (nIdx + 1) out' rest hcons' hout'
            (fun c' hc' hn' => hbm c' (List.mem_cons_of_mem c hc') hn')
            (fun j hj => by
              have := hbit (j + 1) (by simpa using hj)
              rw [show nIdx + (j + 1) = nIdx + 1 + j by omega] at this
              simpa using this)]
          rfl
        · have hnulF : c.nullable = false := by simpa using hnul
          have hzip : zipNullFlags (c :: cols) (some v :: vs) = zipNullFlags cols vs := by
            rw [zipNullFlags]
            simp [hnulF]
          rw [hzip] at hbit
          rw [deserializeCols]
          simp only [hnulF, Bool.false_and, cond_false]
          rw [hdesv]
          simp only [Option.bind_eq_bind, Option.some_bind]
          rw [ih vs bitmap nIdx out' rest hcons' hout'
            (fun c' hc' hn' => hbm c' (List.mem_cons_of_mem c hc') hn') hbit]
          rfl

/-- C2: for every tuple consistent with a table schema (including NULLs
in nullable columns and TEXT up to MAX_TEXT_SIZE = 10 KiB),
`Tuple.serialize` succeeds and `Tuple.deserialize` of its output against
the same schema returns exactly the original tuple. -/
theorem c2_tuple_serialize_roundtrip (schema : TableSchema)
    (values : List (Option SVal)) (h : Consistent schema values) :
    ∃ bytes, Tuple.serialize schema values = some bytes ∧
      Tuple.deserialize bytes schema = some values := by
  obtain ⟨hnod, hcols⟩ := h
  obtain ⟨out, hout⟩ := serializeValues_some _ _ hcols
  refine ⟨(if schema.hasNullableColumns then packBits (nullFlags schema values) else []) ++ out,
    ?_, ?_⟩
  · rw [Tuple.serialize, hout]
    rfl
  · rw [Tuple.deserialize]
    by_cases hN : schema.hasNullableColumns
    · rw [nullFlags_eq_zip schema values hnod]
      have hzlen : (zipNullFlags schema.columns values).length
          = (schema.columns.filter (·.nullable)).length := zipNullFlags_length _ _
      have hbmlen : (packBits (zipNullFlags schema.columns values)).length
          = ((schema.columns.filter (·.nullable)).length + 7) / 8 := by
        rw [packBits_length (zipNullFlags schema.columns values).length _ le_rfl, hzlen]
      have hnc : 0 < (schema.columns.filter (·.nullable)).length := by
        rw [TableSchema.hasNullableColumns, List.any_eq_true] at hN
        obtain ⟨c, hc, hcn⟩ := hN
        have hmem : c ∈ schema.columns.filter (·.nullable) := List.mem_filter.mpr ⟨hc, hcn⟩
        exact List.length_pos.mpr (List.ne_nil_of_mem hmem)
      simp only [if_pos hN]
      rw [if_neg (by simp only [List.length_append, hbmlen]; omega)]
      rw [← hbmlen, List.take_left, List.drop_left]
      have := deserializeCols_roundtrip schema.columns values
        (packBits (zipNullFlags schema.columns values)) 0 out [] hcols hout
        (fun c hc hcn => by
          intro he
          rw [he] at hbmlen
          simp only [List.length_nil] at hbmlen
          omega)
        (fun j hj => by
          have := testBitmap_packBits (zipNullFlags schema.columns values).length
            (zipNullFlags schema.columns values) le_rfl j hj
          simpa using this)
      rw [List.append_nil] at this
      exact this
    · simp only [if_neg hN]
      rw [if_neg (by omega)]
      simp only [List.nil_append, List.take_zero, List.drop_zero]
      have hnone : ∀ c ∈ schema.columns, c.nullable = false := by
        rw [TableSchema.hasNullableColumns] at hN
        intro c hc
        by_contra hcn
        exact hN (List.any_eq_true.mpr ⟨c, hc, by simpa using hcn⟩)
      have hfe : schema.columns.filter (·.nullable) = [] :=
        List.filter_eq_nil.mpr (fun c hc => by simp [hnone c hc])
      have := deserializeCols_roundtrip schema.columns values [] 0 out [] hcols hout
        (fun c hc hcn => absurd hcn (by simp [hnone c hc]))
        (fun j hj => by
          rw [zipNullFlags_length, hfe] at hj
          simp at hj)
      rw [List.append_nil] at this
      exact this

/-- Witness for C2 at a concrete schema (NOT NULL INT primary key, a
nullable TEXT, a nullable BOOLEAN left NULL). -/
theorem c2_tuple_serialize_roundtrip_witness :
    Consistent
      ⟨"users", [⟨"id", .int, false, false⟩, ⟨"name", .text, true, false⟩,
        ⟨"ok", .bool, true, false⟩], ["id"]⟩
      [some (.vint 7), some (.vtext [104, 105]), none] ∧
    ∃ bytes, Tuple.serialize
      ⟨"users", [⟨"id", .int, false, false⟩, ⟨"name", .text, true, false⟩,
        ⟨"ok", .bool, true, false⟩], ["id"]⟩
      [some (.vint 7), some (.vtext [104, 105]), none] = some bytes ∧
      Tuple.deserialize bytes
        ⟨"users", [⟨"id", .int, false, false⟩, ⟨"name", .text, true, false⟩,
          ⟨"ok", .bool, true, false⟩], ["id"]⟩
        = some [some (.vint 7), some (.vtext [104, 105]), none] :=
  ⟨by constructor
      · decide
      · decide,
   c2_tuple_serialize_roundtrip _ _ (by constructor <;> decide)⟩

/-! ### Pages and heap files (src/db_engine/storage.py, Page / HeapFile) -/

/-- `len(tup_data) > 0 and tup_data[0] == 0xFF`: the record's first
byte doubles as the tombstone flag. -/
def isTombstone (data : List Nat) : Bool :=
  match data with
  | [] => false
  | b :: _ => b = 255

/-- storage.Page: in-memory page with header fields and the appended
record list as (offset, record bytes) pairs. -/
structure Page where
  pageNumber : Nat
  tuples : List (Nat × List Nat)
  freeSpace : Nat
  deadTupleCount : Nat
deriving DecidableEq, Repr

/-- Page.__init__. -/
def Page.new (pageNumber : Nat) : Page :=
  ⟨pageNumber, [], PAGE_SIZE - PAGE_HEADER_SIZE, 0⟩

/-- Page.can_fit. -/
def Page.canFit (p : Page) (size : Nat) : Bool :=
  size ≤ p.freeSpace

/-- Page.add_tuple: append the record, returning the updated page and
the record's byte offset from the page start; `none` models the raised
ValueError when the record does not fit. -/
def Page.addTuple (p : Page) (data : List Nat) : Option (Page × Nat) :=
  if p.canFit data.length then
    let offset := PAGE_HEADER_SIZE + (PAGE_SIZE - PAGE_HEADER_SIZE - p.freeSpace)
    let p' : Page := { p with
      tuples := p.tuples ++ [(offset, data)],
      freeSpace := p.freeSpace - data.length }
    some (p', offset)
  else none

/-- Page.get_tuple: first record at the given offset; `none` when
absent or tombstoned. -/
def Page.getTuple (p : Page) (offset : Nat) : Option (List Nat) :=
  match p.tuples.find? (·.1 = offset) with
  | none => none
  | some (_, data) => if isTombstone data then none else some data

/-- The in-place update of Page.mark_deleted on the record list:
overwrite the first byte of the first record at the offset with 0xFF. -/
def markDeletedIn : List (Nat × List Nat) → Nat → Option (List (Nat × List Nat))
  | [], _ => none
  | (off, data) :: rest, offset =>
    if off = offset then some ((off, 255 :: data.tail) :: rest)
    else (markDeletedIn rest offset).map ((off, data) :: ·)

/-- Page.mark_deleted: tombstone the record and bump `dead_tuple_count`;
`none` models the raised ValueError when no record is at the offset. -/
def Page.markDeleted (p : Page) (offset : Nat) : Option Page :=
  (markDeletedIn p.tuples offset).map fun ts =>
    { p with tuples := ts, deadTupleCount := p.deadTupleCount + 1 }

/-- Page.serialize: 16-byte header (free_space, tuple_count, dead_count
as 2-byte little-endian fields, 10 reserved zero bytes), the
concatenated records, zero padding to PAGE_SIZE (Python's negative
`b'\x00' * n` is empty, matching `Nat` subtraction). `none` models a
`struct.pack('HHH', ...)` range error. -/
def Page.serialize (p : Page) : Option (List Nat) :=
  if p.freeSpace < 2 ^ 16 ∧ p.tuples.length < 2 ^ 16 ∧ p.deadTupleCount < 2 ^ 16 then
    let header := natToLE 2 p.freeSpace ++ natToLE 2 p.tuples.length ++
      natToLE 2 p.deadTupleCount ++ List.replicate 10 0
    let body := header ++ (p.tuples.map (·.2)).join
    some (body ++ List.replicate (PAGE_SIZE - body.length) 0)
  else none

/-- Page.deserialize: restores only `free_space` and `dead_tuple_count`
from the header and leaves the record list empty (the source's record
loop is a `pass`). `none` models the `struct.error` on fewer than 6
bytes. -/
def Page.deserialize (data : List Nat) (pageNumber : Nat) : Option Page :=
  if data.length < 6 then none
  else some { pageNumber := pageNumber, tuples := [],
              freeSpace := leToNat (data.take 2),
              deadTupleCount := leToNat ((data.drop 4).take 2) }

/-- storage.HeapFile, modelled with every page resident (the session's
buffer pool holds all pages it created; the disk round-trip through
`_read_page_direct` is modelled separately). `pages` is indexed by page
number; `fsm` is the insertion-ordered free-space map. -/
structure HeapFile where
  pages : List Page
  pageCount : Nat
  fsm : List (Nat × Nat)
deriving DecidableEq, Repr

/-- HeapFile.create. -/
def HeapFile.create : HeapFile :=
  ⟨[], 0, []⟩

/-- Update or append a key in an insertion-ordered dict
(`self.free_space_map[page_num] = ...`). -/
def fsmSet (fsm : List (Nat × Nat)) (key val : Nat) : List (Nat × Nat) :=
  if fsm.any (·.1 = key) then
    fsm.map fun kv => if kv.1 = key then (key, val) else kv
  else fsm ++ [(key, val)]

/-- HeapFile._find_page_with_space: first FSM entry with enough room. -/
def HeapFile.findPageWithSpace (h : HeapFile) (required : Nat) : Option Nat :=
  (h.fsm.find? (fun kv => required ≤ kv.2)).map (·.1)

/-- HeapFile._create_new_page: append a fresh page, bump the page
count, register it in the FSM. -/
def HeapFile.createNewPage (h : HeapFile) : HeapFile × Nat :=
  let pageNum := h.pageCount
  let page := Page.new pageNum
  ({ pages := h.pages ++ [page], pageCount := h.pageCount + 1,
     fsm := fsmSet h.fsm pageNum page.freeSpace }, pageNum)

/-- Replace the resident page at a page number. -/
def HeapFile.setPage (h : HeapFile) (pageNum : Nat) (p : Page) : HeapFile :=
  { h with pages := h.pages.set pageNum p }

/-- HeapFile.insert_tuple on serialized record bytes: pick a page via
the FSM (or allocate), append the record, update the FSM; returns the
new ctid `(page_number, offset)`. -/
def HeapFile.insertTuple (h : HeapFile) (data : List Nat) :
    Option (HeapFile × (Nat × Nat)) := do
  let (h, pageNum) :=
    match h.findPageWithSpace data.length with
    | some pn => (h, pn)
    | none => h.createNewPage
  let page ← h.pages[pageNum]?
  let (page', offset) ← page.addTuple data
  let h := h.setPage pageNum page'
  let h := { h with fsm := fsmSet h.fsm pageNum page'.freeSpace }
  pure (h, (pageNum, offset))

/-- HeapFile.read_tuple up to the record bytes (the caller deserializes
against the schema): `none` when the page or record is absent or the
record is tombstoned. -/
def HeapFile.readTupleData (h : HeapFile) (ctid : Nat × Nat) : Option (List Nat) := do
  let page ← h.pages[ctid.1]?
  page.getTuple ctid.2

/-- HeapFile.delete_tuple: tombstone the record at the ctid. -/
def HeapFile.deleteTuple (h : HeapFile) (ctid : Nat × Nat) : Option HeapFile := do
  let page ← h.pages[ctid.1]?
  let page' ← page.markDeleted ctid.2
  pure (h.setPage ctid.1 page')

/-- The per-page rebuild of HeapFile.vacuum: fold `add_tuple` over the
surviving records into a fresh page. -/
def Page.vacuumRebuild (p : Page) : Option Page :=
  (p.tuples.filter (fun td => !isTombstone td.2)).foldlM
    (fun np td => (np.addTuple td.2).map (·.1)) (Page.new p.pageNumber)

/-- One iteration of the HeapFile.vacuum page loop: skip the page when
its dead count is zero, otherwise rebuild it and update the FSM entry. -/
def vacuumStep (acc : List Page × List (Nat × Nat)) (p : Page) :
    Option (List Page × List (Nat × Nat)) := do
  if p.deadTupleCount = 0 then
    pure (acc.1 ++ [p], acc.2)
  else
    let np ← p.vacuumRebuild
    pure (acc.1 ++ [np], fsmSet acc.2 p.pageNumber np.freeSpace)

/-- HeapFile.vacuum: rebuild every page with a non-zero dead count from
its surviving records, replace the resident page and update the FSM
(pages with dead count 0 are skipped). -/
def HeapFile.vacuum (h : HeapFile) : Option HeapFile := do
  let (pages', fsm') ← h.pages.foldlM vacuumStep ([], h.fsm)
  pure { h with pages := pages', fsm := fsm' }

/-- catalog.TableStatistics (numeric fields). -/
structure TableStatistics where
  rowCount : Nat
  pageCount : Nat
  deadTupleCount : Nat
  modificationCount : Nat
deriving DecidableEq, Repr

/-- executor.QueryExecutor.execute_vacuum on one table: calls
HeapFile.vacuum; the reclaimed-space total only feeds the status
message, and the catalog statistics are not touched. -/
def executeVacuum (h : HeapFile) (stats : TableStatistics) :
    Option (HeapFile × TableStatistics) :=
  h.vacuum.map (fun h' => (h', stats))

/-! ### Vacuum and disk round-trip theorems -/

theorem addTuple_chain : ∀ (records : List (List Nat)) (p : Page),
    (records.map List.length).sum ≤ p.freeSpace →
    ∃ p', records.foldlM (fun np d => (np.addTuple d).map (·.1)) p = some p' ∧
      p'.tuples.map (·.2) = p.tuples.map (·.2) ++ records ∧
      p'.freeSpace = p.freeSpace - (records.map List.length).sum ∧
      p'.deadTupleCount = p.deadTupleCount ∧
      p'.pageNumber = p.pageNumber := by
  intro records
  induction records with
  | nil => intro p _; exact ⟨p, rfl, by simp, by simp, rfl, rfl⟩
  | cons d ds ih =>
    intro p hsum
    simp only [List.map_cons, List.sum_cons] at hsum
    have hfit : p.canFit d.length = true := by
      rw [Page.canFit]
      simp only [decide_eq_true_eq]
      omega
    obtain ⟨p', hfold, hdata, hfree, hdead, hpn⟩ := ih
      (Page.mk p.pageNumber
        (p.tuples ++ [(PAGE_HEADER_SIZE + (PAGE_SIZE - PAGE_HEADER_SIZE - p.freeSpace), d)])
        (p.freeSpace - d.length) p.deadTupleCount)
      (by show (List.map List.length ds).sum ≤ p.freeSpace - d.length; omega)
    have hstep : (p.addTuple d).map (fun x => x.1) = some
        (Page.mk p.pageNumber
          (p.tuples ++ [(PAGE_HEADER_SIZE + (PAGE_SIZE - PAGE_HEADER_SIZE - p.freeSpace), d)])
          (p.freeSpace - d.length) p.deadTupleCount) := by
      rw [Page.addTuple, if_pos hfit]
      rfl
    refine ⟨p', ?_, ?_, ?_, hdead, hpn⟩
    · simp only [List.foldlM_cons]
      rw [hstep]
      simpa using hfold
    · rw [hdata]
      simp
    · rw [hfree, List.map_cons, List.sum_cons]
      show (p.freeSpace - d.length) - (List.map List.length ds).sum
        = p.freeSpace - (d.length + (List.map List.length ds).sum)
      omega

theorem foldlM_addTuple_map (l : List (Nat × List Nat)) :
    ∀ (p : Page), l.foldlM (fun np td => (np.addTuple td.2).map (·.1)) p
      = (l.map (·.2)).foldlM (fun np d => (np.addTuple d).map (·.1)) p := by
  induction l with
  | nil => intro p; rfl
  | cons td l ih =>
    intro p
    rw [List.map_cons, List.foldlM_cons, List.foldlM_cons]
    cases (p.addTuple td.2).map (·.1) with
    | none => rfl
    | some q => simpa using ih q

theorem sum_map_filter_le (l : List (Nat × List Nat)) (q : Nat × List Nat → Bool) :
    (((l.filter q).map (·.2)).map List.length).sum ≤ ((l.map (·.2)).map List.length).sum := by
  induction l with
  | nil => simp
  | cons td l ih =>
    by_cases h : q td
    · rw [List.filter_cons_of_pos h]
      simp only [List.map_cons, List.sum_cons]
      omega
    · rw [List.filter_cons_of_neg h]
      simp only [List.map_cons, List.sum_cons]
      omega

theorem vacuumRebuild_ok (p : Page)
    (hsum : ((p.tuples.map (·.2)).map List.length).sum ≤ PAGE_SIZE - PAGE_HEADER_SIZE) :
    ∃ p', p.vacuumRebuild = some p' ∧
      p'.tuples.map (·.2) = (p.tuples.filter (fun td => !isTombstone td.2)).map (·.2) ∧
      p'.deadTupleCount = 0 ∧ p'.pageNumber = p.pageNumber := by
  have hle : (((p.tuples.filter (fun td => !isTombstone td.2)).map (·.2)).map List.length).sum
      ≤ (Page.new p.pageNumber).freeSpace := by
    have := sum_map_filter_le p.tuples (fun td => !isTombstone td.2)
    rw [Page.new]
    simp only []
    omega
  obtain ⟨p', hfold, hdata, _, hdead, hpn⟩ := addTuple_chain
    ((p.tuples.filter (fun td => !isTombstone td.2)).map (·.2)) (Page.new p.pageNumber) hle
  refine ⟨p', ?_, ?_, ?_, hpn⟩
  · rw [Page.vacuumRebuild, foldlM_addTuple_map]
    exact hfold
  · rw [hdata]
    simp [Page.new]
  · rw [hdead]
    rfl

theorem vacuum_fold (pages : List Page) :
    ∀ (acc : List Page × List (Nat × Nat)),
    (∀ p ∈ pages, ((p.tuples.map (·.2)).map List.length).sum ≤ PAGE_SIZE - PAGE_HEADER_SIZE) →
    (∀ p ∈ pages, p.deadTupleCount = 0 → ∀ td ∈ p.tuples, isTombstone td.2 = false) →
    ∃ rebuilt fsm', pages.foldlM vacuumStep acc = some (acc.1 ++ rebuilt, fsm') ∧
      List.Forall₂ (fun p p' => p'.tuples.map (·.2)
        = (p.tuples.filter (fun td => !isTombstone td.2)).map (·.2)) pages rebuilt ∧
      (∀ p' ∈ rebuilt, ∀ td ∈ p'.tuples, isTombstone td.2 = false) := by
  induction pages with
  | nil =>
    intro acc _ _
    exact ⟨[], acc.2, by simp [List.foldlM_nil], List.Forall₂.nil, by simp⟩
  | cons p pages ih =>
    intro acc hfit hdead
    by_cases hd : p.deadTupleCount = 0
    · have hlive : ∀ td ∈ p.tuples, isTombstone td.2 = false :=
        hdead p (by simp) hd
      obtain ⟨rebuilt, fsm', hfold, hrel, hall⟩ := ih (acc.1 ++ [p], acc.2)
        (fun q hq => hfit q (by simp [hq]))
        (fun q hq => hdead q (by simp [hq]))
      refine ⟨p :: rebuilt, fsm', ?_, ?_, ?_⟩
      · rw [List.foldlM_cons]
        have hstep : vacuumStep acc p = some (acc.1 ++ [p], acc.2) := by
          rw [vacuumStep, if_pos hd]
          rfl
        rw [hstep]
        simpa [List.append_assoc] using hfold
      · refine List.Forall₂.cons ?_ hrel
        rw [List.filter_eq_self.mpr (fun td htd => by simp [hlive td htd])]
      · intro p' hp'
        rcases List.mem_cons.mp hp' with hp' | hp'
        · subst hp'
          exact hlive
        · exact hall p' hp'
    · obtain ⟨np, hnp, hdata, hzero, hpn⟩ := vacuumRebuild_ok p (hfit p (by simp))
      obtain ⟨rebuilt, fsm', hfold, hrel, hall⟩ := ih
        (acc.1 ++ [np], fsmSet acc.2 p.pageNumber np.freeSpace)
        (fun q hq => hfit q (by simp [hq]))
        (fun q hq => hdead q (by simp [hq]))
      refine ⟨np :: rebuilt, fsm', ?_, List.Forall₂.cons hdata hrel, ?_⟩
      · rw [List.foldlM_cons]
        have hstep : vacuumStep acc p
            = some (acc.1 ++ [np], fsmSet acc.2 p.pageNumber np.freeSpace) := by
          rw [vacuumStep, if_neg hd, hnp]
          rfl
        rw [hstep]
        simpa [List.append_assoc] using hfold
      · intro p' hp'
        rcases List.mem_cons.mp hp' with hp' | hp'
        · intro td htd
          rw [hp'] at htd
          have hmem : td.2 ∈ np.tuples.map (·.2) := List.mem_map_of_mem _ htd
          rw [hdata] at hmem
          obtain ⟨td', htd', heq⟩ := List.mem_map.mp hmem
          have hf := List.mem_filter.mp htd'
          rw [← heq]
          simpa using hf.2
        · exact hall p' hp'

/-- C9: after HeapFile.vacuum (as run by execute_vacuum), no
tombstoned record remains in any page, the surviving records of every
page keep their insertion order (each result page's record list is
exactly the source page's live records, in order), and the table's
row_count statistic is untouched. Hypotheses: every page's records fit
its body (as they did when inserted) and a zero dead count means no
tombstoned records (the invariant `mark_deleted` maintains). -/
theorem c9_vacuum_no_tombstones (h : HeapFile) (stats : TableStatistics)
    (hfit : ∀ p ∈ h.pages,
      ((p.tuples.map (·.2)).map List.length).sum ≤ PAGE_SIZE - PAGE_HEADER_SIZE)
    (hdead : ∀ p ∈ h.pages, p.deadTupleCount = 0 →
      ∀ td ∈ p.tuples, isTombstone td.2 = false) :
    ∃ h', executeVacuum h stats = some (h', stats) ∧
      (∀ p' ∈ h'.pages, ∀ td ∈ p'.tuples, isTombstone td.2 = false) ∧
      List.Forall₂ (fun p p' => p'.tuples.map (·.2)
        = (p.tuples.filter (fun td => !isTombstone td.2)).map (·.2)) h.pages h'.pages := by
  obtain ⟨rebuilt, fsm', hfold, hrel, hall⟩ := vacuum_fold h.pages ([], h.fsm) hfit hdead
  refine ⟨{ h with pages := rebuilt, fsm := fsm' }, ?_, hall, hrel⟩
  simp only [List.nil_append] at hfold
  rw [executeVacuum, HeapFile.vacuum, hfold]
  rfl

/-- Witness for C9: one page with one tombstoned and one live record. -/
theorem c9_vacuum_no_tombstones_witness :
    ((∀ p ∈ (HeapFile.mk [Page.mk 0 [(16, [255, 1]), (18, [2, 3])] 8172 1] 1 [(0, 8172)]).pages,
      ((p.tuples.map (·.2)).map List.length).sum ≤ PAGE_SIZE - PAGE_HEADER_SIZE) ∧
     (∀ p ∈ (HeapFile.mk [Page.mk 0 [(16, [255, 1]), (18, [2, 3])] 8172 1] 1 [(0, 8172)]).pages,
      p.deadTupleCount = 0 → ∀ td ∈ p.tuples, isTombstone td.2 = false)) ∧
    ∃ h', executeVacuum (HeapFile.mk [Page.mk 0 [(16, [255, 1]), (18, [2, 3])] 8172 1] 1 [(0, 8172)])
        (TableStatistics.mk 5 1 1 0) = some (h', TableStatistics.mk 5 1 1 0) ∧
      (∀ p' ∈ h'.pages, ∀ td ∈ p'.tuples, isTombstone td.2 = false) ∧
      List.Forall₂ (fun p p' => p'.tuples.map (·.2)
        = (p.tuples.filter (fun td => !isTombstone td.2)).map (·.2))
        (HeapFile.mk [Page.mk 0 [(16, [255, 1]), (18, [2, 3])] 8172 1] 1 [(0, 8172)]).pages
        h'.pages :=
  ⟨⟨by decide, by decide⟩,
   c9_vacuum_no_tombstones _ _ (by decide) (by decide)⟩

/-- C10: Page.deserialize restores only the header fields
(`free_space` from bytes 0-1 and `dead_count` from bytes 4-5, both
2-byte little-endian) and no records at all, so every `get_tuple` on a
page materialised from disk (the buffer-pool-miss path
`_read_page_direct` → `Page.deserialize` used by `read_tuple`) is
not-found — even on the exact bytes `Page.serialize` wrote for a page
holding a live record. -/
theorem c10_page_deserialize_drops_records :
    (∀ (data : List Nat) (pn : Nat) (page : Page),
      Page.deserialize data pn = some page →
      page.tuples = [] ∧ page.freeSpace = leToNat (data.take 2) ∧
      page.deadTupleCount = leToNat ((data.drop 4).take 2) ∧
      ∀ offset, page.getTuple offset = none) ∧
    (∀ (p : Page) (pn offset : Nat), p.serialize ≠ none →
      ((p.serialize.bind fun bytes => Page.deserialize bytes pn).bind
        fun q => q.getTuple offset) = none) := by
  have h1 : ∀ (data : List Nat) (pn : Nat) (page : Page),
      Page.deserialize data pn = some page →
      page.tuples = [] ∧ page.freeSpace = leToNat (data.take 2) ∧
      page.deadTupleCount = leToNat ((data.drop 4).take 2) ∧
      ∀ offset, page.getTuple offset = none := by
    intro data pn page h
    rw [Page.deserialize] at h
    split at h
    · exact absurd h (by simp)
    · injection h with h
      subst h
      exact ⟨rfl, rfl, rfl, fun offset => rfl⟩
  refine ⟨h1, ?_⟩
  intro p pn offset hns
  cases hs : p.serialize with
  | none => exact absurd hs hns
  | some bytes =>
    have hlen : 6 ≤ bytes.length := by
      rw [Page.serialize] at hs
      split at hs
      · injection hs with hs
        subst hs
        simp only [List.length_append, natToLE_length, List.length_replicate]
        omega
      · exact absurd hs (by simp)
    cases hd : Page.deserialize bytes pn with
    | none =>
      rw [Page.deserialize, if_neg (by omega)] at hd
      exact absurd hd (by simp)
    | some q =>
      obtain ⟨_, _, _, hget⟩ := h1 bytes pn q hd
      simp [hd, hget offset]

/-- Witness for C10: a concrete 6-byte header and a page holding one
live record whose serialization round-trips to a record-less page. -/
theorem c10_page_deserialize_drops_records_witness :
    (Page.deserialize [100, 0, 2, 0, 1, 0] 5 = some (Page.mk 5 [] 100 1)) ∧
    ((Page.mk 5 [] 100 1).tuples = [] ∧
      (Page.mk 5 [] 100 1).freeSpace = leToNat ([100, 0, 2, 0, 1, 0].take 2) ∧
      (Page.mk 5 [] 100 1).deadTupleCount = leToNat (([100, 0, 2, 0, 1, 0].drop 4).take 2) ∧
      ∀ offset, (Page.mk 5 [] 100 1).getTuple offset = none) ∧
    ((Page.mk 0 [(16, [7, 7, 7])] 8173 0).serialize ≠ none) ∧
    (((Page.mk 0 [(16, [7, 7, 7])] 8173 0).serialize.bind
        fun bytes => Page.deserialize bytes 0).bind
      fun q => q.getTuple 16) = none :=
  ⟨by decide,
   c10_page_deserialize_drops_records.1 [100, 0, 2, 0, 1, 0] 5 _ (by decide),
   by decide,
   c10_page_deserialize_drops_records.2 _ 0 16 (by decide)⟩

/-! ### B-tree index (src/db_engine/btree.py)

The module is parametric in the key type `K` with `lt : K → K → Bool`
embedding Python's `<` on the key domain in use and `trunc : K → K`
embedding `BTreeNode.truncate_key`. It is instantiated at `Int`
(INT keys: `trunc` is the identity, as in the source's final arm) and at
`String` (TEXT keys: `trunc` takes the first INDEX_TEXT_MAX_LENGTH code
points). -/

/-- Values stored beside keys: ctids in leaves, child file offsets in
internal nodes (one untyped Python list in the source). -/
inductive BVal
  | vctid (c : Nat × Nat)
  | vchild (off : Nat)
deriving DecidableEq, Repr

/-- btree.BTreeNode. -/
structure BTreeNode (K : Type) where
  isLeaf : Bool
  keys : List K
  values : List BVal
  nextLeaf : Int
  fileOffset : Nat
deriving DecidableEq, Repr

/-- BTreeNode.is_full: `len(self.keys) >= BTREE_ORDER - 1`. -/
def BTreeNode.isFull {K : Type} (n : BTreeNode K) : Bool :=
  BTREE_ORDER - 1 ≤ n.keys.length

/-- btree.BTreeIndex: the node file as an offset-keyed store, plus the
header fields (root offset, node count, unique flag). -/
structure BTreeIndex (K : Type) where
  store : List (Nat × BTreeNode K)
  rootOffset : Nat
  nodeCount : Nat
  uniqueFlag : Bool
deriving DecidableEq, Repr

/-- BTreeIndex._read_node: fetch the node written at a file offset. -/
def readNode {K : Type} (st : List (Nat × BTreeNode K)) (off : Nat) :
    Option (BTreeNode K) :=
  (st.find? (·.1 = off)).map (·.2)

/-- BTreeIndex._write_node: overwrite the node slot at
`node.file_offset` (or append a newly allocated one). -/
def writeNode {K : Type} (st : List (Nat × BTreeNode K)) (n : BTreeNode K) :
    List (Nat × BTreeNode K) :=
  if st.any (·.1 = n.fileOffset) then
    st.map fun kv => if kv.1 = n.fileOffset then (kv.1, n) else kv
  else st ++ [(n.fileOffset, n)]

/-- BTreeIndex._allocate_offset: `64 + node_count * NODE_SIZE`. -/
def allocateOffset (nodeCount : Nat) : Nat :=
  64 + nodeCount * NODE_SIZE

/-- BTreeIndex.create: a single empty leaf root at offset 64. -/
def BTreeIndex.create (K : Type) (uniqueFlag : Bool) : BTreeIndex K :=
  let root : BTreeNode K := ⟨true, [], [], -1, allocateOffset 0⟩
  ⟨[(root.fileOffset, root)], root.fileOffset, 1, uniqueFlag⟩

/-- Python `list.insert(i, x)` (appends when `i` exceeds the length). -/
def pyInsertAt {α : Type} (l : List α) (i : Nat) (x : α) : List α :=
  l.take i ++ [x] ++ l.drop i

section BTreeOps

variable {K : Type} (lt : K → K → Bool) (trunc : K → K)

/-- BTreeNode.compare_keys: truncate both keys, then compare with
Python's `<` / `>` (-1/0/1 becomes an `Ordering`). -/
def compareKeys (k1 k2 : K) : Ordering :=
  if lt (trunc k1) (trunc k2) then .lt
  else if lt (trunc k2) (trunc k1) then .gt
  else .eq

/-- The `while i < len(node.keys)` scan of _search_node: first position
whose comparison stops the loop. -/
inductive ScanRes
  | foundAt (i : Nat)
  | stopAt (i : Nat)
deriving DecidableEq, Repr

def searchScan (key : K) : List K → Nat → ScanRes
  | [], i => .stopAt i
  | k :: ks, i =>
    match compareKeys lt trunc key k with
    | .eq => .foundAt i
    | .lt => .stopAt i
    | .gt => searchScan key ks (i + 1)

/-- Read `node.values[i]` expecting a ctid. -/
def getCtidAt (vals : List BVal) (i : Nat) : Option (Nat × Nat) :=
  match vals[i]? with
  | some (.vctid c) => some c
  | _ => none

/-- Read `node.values[i]` expecting a child offset, then load it. -/
def readChildAt (st : List (Nat × BTreeNode K)) (vals : List BVal) (i : Nat) :
    Option (BTreeNode K) :=
  match vals[i]? with
  | some (.vchild off) => readNode st off
  | _ => none

/-- BTreeIndex._search_node (recursive; `fuel` bounds the descent,
ample at `node_count`). -/
def searchNode (st : List (Nat × BTreeNode K)) :
    Nat → BTreeNode K → K → Option (Nat × Nat)
  | 0, _, _ => none
  | fuel + 1, node, key =>
    match searchScan lt trunc key node.keys 0 with
    | .foundAt i =>
      if node.isLeaf then getCtidAt node.values i
      else do
        let child ← readChildAt st node.values (i + 1)
        searchNode st fuel child key
    | .stopAt i =>
      if node.isLeaf then none
      else do
        let child ← readChildAt st node.values i
        searchNode st fuel child key

/-- BTreeIndex.search: truncate the probe key and search from the root. -/
def BTreeIndex.search (idx : BTreeIndex K) (key : K) : Option (Nat × Nat) := do
  let key := trunc key
  let root ← readNode idx.store idx.rootOffset
  searchNode lt trunc idx.store (idx.nodeCount + 1) root key

/-- The leaf-insertion walk of _insert_non_full: Python shifts entries
right from the tail while `compare_keys(key, keys[i]) < 0`, so the new
entry lands after every key ≤ the new key. -/
def leafInsertPos (key : K) (keys : List K) : Nat :=
  keys.length - (keys.reverse.takeWhile
    (fun k => compareKeys lt trunc key k = .lt)).length

/-- The child-descent index of _insert_non_full for internal nodes
(same backward walk, then `i += 1`). -/
def childDescendIndex (key : K) (keys : List K) : Nat :=
  keys.length - (keys.reverse.takeWhile
    (fun k => compareKeys lt trunc key k = .lt)).length

/-- BTreeIndex._split_child: split the full `child` at `childIndex` of
`parent`; returns the updated store, node count and parent node. -/
def splitChild (st : List (Nat × BTreeNode K)) (nodeCount : Nat)
    (parent : BTreeNode K) (childIndex : Nat) (child : BTreeNode K) :
    Option (List (Nat × BTreeNode K) × Nat × BTreeNode K) := do
  let newOffset := allocateOffset nodeCount
  let mid := child.keys.length / 2
  let medianKey ← child.keys[mid]?
  let (newNode, child') :=
    if child.isLeaf then
      ((⟨true, child.keys.drop mid, child.values.drop mid,
          child.nextLeaf, newOffset⟩ : BTreeNode K),
       (⟨true, child.keys.take mid, child.values.take mid,
          Int.ofNat newOffset, child.fileOffset⟩ : BTreeNode K))
    else
      ((⟨false, child.keys.drop (mid + 1), child.values.drop (mid + 1),
          -1, newOffset⟩ : BTreeNode K),
       (⟨false, child.keys.take mid, child.values.take (mid + 1),
          child.nextLeaf, child.fileOffset⟩ : BTreeNode K))
  let parent' : BTreeNode K := { parent with
    keys := pyInsertAt parent.keys childIndex medianKey,
    values := pyInsertAt parent.values (childIndex + 1) (.vchild newOffset) }
  let st := writeNode (writeNode (writeNode st child') newNode) parent'
  pure (st, nodeCount + 1, parent')

/-- BTreeIndex._insert_non_full (recursive, with proactive split of a
full child on the way down). Returns the updated store and node count. -/
def insertNonFull (st : List (Nat × BTreeNode K)) (nodeCount : Nat) :
    Nat → BTreeNode K → K → (Nat × Nat) →
    Option (List (Nat × BTreeNode K) × Nat)
  | 0, _, _, _ => none
  | fuel + 1, node, key, ctid =>
    if node.isLeaf then
      let pos := leafInsertPos lt trunc key node.keys
      let node' : BTreeNode K := { node with
        keys := pyInsertAt node.keys pos key,
        values := pyInsertAt node.values pos (.vctid ctid) }
      some (writeNode st node', nodeCount)
    else do
      let i := childDescendIndex lt trunc key node.keys
      let child ← readChildAt st node.values i
      if child.isFull then do
        let (st, nodeCount, node') ← splitChild st nodeCount node i child
        let sep ← node'.keys[i]?
        let i := if compareKeys lt trunc key sep = .gt then i + 1 else i
        let child ← readChildAt st node'.values i
        insertNonFull st nodeCount fuel child key ctid
      else
        insertNonFull st nodeCount fuel child key ctid

/-- BTreeIndex.insert: truncate the key, enforce uniqueness through
search, split a full root, then descend. The raised ValueError of a
unique-key collision is the `.error` case; `.ok` carries the updated
index (the source mutates in place). -/
def BTreeIndex.insert (idx : BTreeIndex K) (key : K) (ctid : Nat × Nat) :
    Except String (BTreeIndex K) := do
  let key := trunc key
  if idx.uniqueFlag then
    if (BTreeIndex.search lt trunc idx key).isSome then
      throw "Duplicate key violation: key already exists in unique index"
  let root ← match readNode idx.store idx.rootOffset with
    | some r => pure r
    | none => throw "corrupt index: missing root"
  if root.isFull then do
    let newRoot : BTreeNode K :=
      ⟨false, [], [.vchild root.fileOffset], -1, allocateOffset idx.nodeCount⟩
    let nodeCount := idx.nodeCount + 1
    let (st, nodeCount, newRoot') ←
      match splitChild idx.store nodeCount newRoot 0 root with
      | some r => pure r
      | none => throw "corrupt index: split failed"
    let rootOffset := newRoot'.fileOffset
    match insertNonFull lt trunc st nodeCount (nodeCount + 1) newRoot' key ctid with
    | some (st, nodeCount) =>
      pure ⟨st, rootOffset, nodeCount, idx.uniqueFlag⟩
    | none => throw "corrupt index: insert failed"
  else
    match insertNonFull lt trunc idx.store idx.nodeCount (idx.nodeCount + 1)
        root key ctid with
    | some (st, nodeCount) =>
      pure ⟨st, idx.rootOffset, nodeCount, idx.uniqueFlag⟩
    | none => throw "corrupt index: insert failed"

/-- BTreeIndex._find_leaf_for_key: descend into child `i` where `i`
counts the leading keys with `compare_keys(key, keys[i]) >= 0`. -/
def findLeafForKey (st : List (Nat × BTreeNode K)) :
    Nat → BTreeNode K → K → Option (BTreeNode K)
  | 0, _, _ => none
  | fuel + 1, node, key =>
    if node.isLeaf then some node
    else do
      let i := (node.keys.takeWhile
        (fun k => compareKeys lt trunc key k ≠ .lt)).length
      let child ← readChildAt st node.values i
      findLeafForKey st fuel child key

/-- The per-leaf collection loop of range_query; the Bool is the early
`return results` on the first key past `end_key`. -/
def collectInLeaf (s e : K) :
    List K → List BVal → Option (List (Nat × Nat) × Bool)
  | [], _ => some ([], false)
  | k :: ks, vals => do
    let (v, vs) ← match vals with
      | [] => none
      | v :: vs => some (v, vs)
    let cmpStart := compareKeys lt trunc k s
    let cmpEnd := compareKeys lt trunc k e
    if cmpStart ≠ .lt ∧ cmpEnd ≠ .gt then do
      let c ← match v with
        | .vctid c => some c
        | _ => none
      let (rest, stopped) ← collectInLeaf s e ks vs
      pure (c :: rest, stopped)
    else if cmpEnd = .gt then
      pure ([], true)
    else
      collectInLeaf s e ks vs

/-- The `next_leaf` walk of range_query. -/
def rangeCollect (st : List (Nat × BTreeNode K)) (s e : K) :
    Nat → BTreeNode K → Option (List (Nat × Nat))
  | 0, _ => none
  | fuel + 1, leaf => do
    let (res, stopped) ← collectInLeaf lt trunc s e leaf.keys leaf.values
    if stopped then
      pure res
    else if leaf.nextLeaf ≠ -1 then do
      let next ← readNode st leaf.nextLeaf.toNat
      let rest ← rangeCollect st s e fuel next
      pure (res ++ rest)
    else
      pure res

/-- BTreeIndex.range_query: truncate the bounds, find the leaf for
`start_key`, then follow the leaf chain. -/
def BTreeIndex.rangeQuery (idx : BTreeIndex K) (startKey endKey : K) :
    Option (List (Nat × Nat)) := do
  let s := trunc startKey
  let e := trunc endKey
  let root ← readNode idx.store idx.rootOffset
  let leaf ← findLeafForKey lt trunc idx.store (idx.nodeCount + 1) root s
  rangeCollect lt trunc idx.store s e (idx.nodeCount + 1) leaf

end BTreeOps

/-- Python `<` on `int` keys. -/
def intLt (a b : Int) : Bool := a < b

/-- truncate_key on non-str, non-tuple keys: unchanged. -/
def intTrunc (a : Int) : Int := a

/-- Lexicographic code-point comparison on character lists: Python's
`<` on `str`. -/
def charListLt : List Char → List Char → Bool
  | [], [] => false
  | [], _ :: _ => true
  | _ :: _, [] => false
  | a :: as, b :: bs => if a < b then true else if b < a then false else charListLt as bs

/-- Python `<` on `str` keys (code-point lexicographic). -/
def strLt (a b : String) : Bool := charListLt a.data b.data

/-- truncate_key on str keys: `key[:INDEX_TEXT_MAX_LENGTH]` (the first
10 Unicode code points). -/
def strTrunc (a : String) : String := ⟨a.data.take INDEX_TEXT_MAX_LENGTH⟩

theorem charListLt_irrefl : ∀ l : List Char, charListLt l l = false := by
  intro l
  induction l with
  | nil => rfl
  | cons a as ih =>
    rw [charListLt, if_neg (lt_irrefl a), if_neg (lt_irrefl a)]
    exact ih

/-- Test an `Except` result for the unique-violation ValueError. -/
def isDupError {α : Type} (r : Except String α) : Bool :=
  match r with
  | .error s => s = "Duplicate key violation: key already exists in unique index"
  | .ok _ => false

/-- The fourteen integer keys of the order-4 B-tree boundary case. -/
def keys14 : List Int := [50, 10, 90, 30, 70, 20, 40, 60, 80, 100, 5, 15, 25, 35]

/-- The index built by inserting the fourteen keys (key `k` with ctid
`(0, k)`) into an empty non-unique order-4 B-tree. -/
def c3Build : Except String (BTreeIndex Int) :=
  keys14.foldlM (fun idx k => BTreeIndex.insert intLt intTrunc idx k (0, k.toNat))
    (BTreeIndex.create Int false)

/-- C3: after inserting [50, 10, 90, 30, 70, 20, 40, 60, 80, 100, 5,
15, 25, 35] into an empty non-unique order-4 B-tree, search finds every
key (with its ctid), and range_query(20, 50) returns exactly the ctids
of 20, 25, 30, 35, 40, 50 in ascending key order. -/
theorem c3_btree_order4_build :
    (∀ k ∈ keys14, (c3Build.toOption.bind
      (fun idx => BTreeIndex.search intLt intTrunc idx k)) = some (0, k.toNat)) ∧
    (c3Build.toOption.bind
      (fun idx => BTreeIndex.rangeQuery intLt intTrunc idx 20 50))
      = some [(0, 20), (0, 25), (0, 30), (0, 35), (0, 40), (0, 50)] := by
  constructor
  · decide
  · decide

/-- Witness for C3 at the key 50. -/
theorem c3_btree_order4_build_witness :
    (50 : Int) ∈ keys14 ∧
    (c3Build.toOption.bind
      (fun idx => BTreeIndex.search intLt intTrunc idx 50)) = some (0, 50) :=
  ⟨by decide, c3_btree_order4_build.1 50 (by decide)⟩

/-- The unique TEXT index after inserting "abcdefghij1" with ctid
(0, 1). -/
def c5Build : Except String (BTreeIndex String) :=
  BTreeIndex.insert strLt strTrunc (BTreeIndex.create String true)
    "abcdefghij1" (0, 1)

/-- C5: every TEXT key is truncated to its first INDEX_TEXT_MAX_LENGTH
= 10 code points before comparison or storage (keys agreeing on that
prefix compare equal), so inserting "abcdefghij2" after "abcdefghij1"
into a unique index raises the uniqueness ValueError; the check runs
before any node is modified (the `.error` branch of the embedding
performs no store write), and the stored entry still maps the truncated
key — probed as "abcdefghij2" or "abcdefghij1" — to the first ctid. -/
theorem c5_unique_text_truncation :
    (∀ s1 s2 : String, strTrunc s1 = strTrunc s2 →
      compareKeys strLt strTrunc s1 s2 = .eq) ∧
    isDupError (c5Build.bind
      (fun idx => BTreeIndex.insert strLt strTrunc idx "abcdefghij2" (0, 2))) = true ∧
    (c5Build.toOption.bind (fun idx => BTreeIndex.search strLt strTrunc idx "abcdefghij2"))
      = some (0, 1) ∧
    (c5Build.toOption.bind (fun idx => BTreeIndex.search strLt strTrunc idx "abcdefghij1"))
      = some (0, 1) := by
  refine ⟨?_, by decide, by decide, by decide⟩
  intro s1 s2 h
  rw [compareKeys, h]
  rw [strLt, charListLt_irrefl]
  simp

/-- Witness for C5 at the two colliding keys. -/
theorem c5_unique_text_truncation_witness :
    strTrunc "abcdefghij1" = strTrunc "abcdefghij2" ∧
    compareKeys strLt strTrunc "abcdefghij1" "abcdefghij2" = .eq :=
  ⟨by decide, c5_unique_text_truncation.1 "abcdefghij1" "abcdefghij2" (by decide)⟩

/-! ### Expression evaluation (src/db_engine/executor.py,
QueryExecutor._evaluate_expression / _eval_operand / _like_match)

Runtime values are Python ints, floats, strings and bools; a float is
embedded as the exact rational it denotes (the comparisons and
negations the executor performs are exact), NULL as `none`. -/

/-- A non-NULL runtime value. -/
inductive PyVal
  | pint (n : Int)
  | pfloat (q : ℚ)
  | pstr (s : String)
  | pbool (b : Bool)
deriving DecidableEq, Repr

/-- parser.BinaryOp operators. -/
inductive BOp
  | beq
  | bne
  | blt
  | bgt
  | ble
  | bge
  | blike
  | band
  | bor
deriving DecidableEq, Repr

/-- parser expression nodes (BinaryOp, UnaryOp NOT, Literal,
ColumnRef). -/
inductive Expr
  | bin (op : BOp) (l r : Expr)
  | unNot (e : Expr)
  | lit (v : Option PyVal)
  | col (name : String)
deriving DecidableEq, Repr

/-- Python numeric view: ints, floats and bools are mutually comparable
(True counts as 1); strings are not numeric. -/
def toRat? : PyVal → Option ℚ
  | .pint n => some n
  | .pfloat q => some q
  | .pbool b => some (cond b 1 0)
  | .pstr _ => none

/-- Python `==` on values: numeric cross-type equality, string
equality, everything else unequal. -/
def pyEqVal (a b : PyVal) : Bool :=
  match toRat? a, toRat? b with
  | some x, some y => x = y
  | _, _ =>
    match a, b with
    | .pstr s, .pstr t => s = t
    | _, _ => false

/-- Python `==` with None: `None == None` is True, `None == v` False. -/
def pyEqOpt (a b : Option PyVal) : Bool :=
  match a, b with
  | none, none => true
  | none, some _ => false
  | some _, none => false
  | some x, some y => pyEqVal x y

/-- Python `<`-family ordering on values; `none` models the TypeError
of a mixed string/number comparison. -/
def pyCompareVal (a b : PyVal) : Option Ordering :=
  match toRat? a, toRat? b with
  | some x, some y => some (if x < y then .lt else if y < x then .gt else .eq)
  | _, _ =>
    match a, b with
    | .pstr s, .pstr t =>
        some (if strLt s t then .lt else if strLt t s then .gt else .eq)
    | _, _ => none

/-- Python truthiness of an evaluation result. -/
def pyTruthy : Option PyVal → Bool
  | none => false
  | some (.pint n) => n ≠ 0
  | some (.pfloat q) => q ≠ 0
  | some (.pstr s) => s ≠ ""
  | some (.pbool b) => b

/-- Python `str()` of a value, as far as the embedding needs it (float
formatting is not modelled: `none`). -/
def pyStr : PyVal → Option String
  | .pint n => some (toString n)
  | .pstr s => some s
  | .pbool b => some (cond b "True" "False")
  | .pfloat _ => none

/-- The regex built by _like_match, run on character lists: `%` matches
any run of non-newline characters, `_` any single non-newline character
(`.`/`.*` without DOTALL), other characters literally. -/
def likeCore : List Char → List Char → Bool
  | [], [] => true
  | [], _ :: _ => false
  | '%' :: ps, text =>
    likeCore ps text ||
      (match text with
       | [] => false
       | c :: ts => c ≠ '\n' && likeCore ('%' :: ps) ts)
  | '_' :: ps, text =>
    (match text with
     | [] => false
     | c :: ts => c ≠ '\n' && likeCore ps ts)
  | p :: ps, text =>
    (match text with
     | [] => false
     | c :: ts => p = c && likeCore ps ts)
termination_by ps text => (ps.length, text.length)

/-- _like_match: the anchored `re.match(f'^{...}$', text)`; Python's
`$` also matches just before one trailing newline. -/
def likeMatch (text pattern : String) : Bool :=
  likeCore pattern.data text.data ||
    (text.data.getLast? = some '\n' && likeCore pattern.data text.data.dropLast)

/-- QueryExecutor._evaluate_expression (with _eval_operand inlined: on
a ColumnRef or Literal it reads the value directly, and on a nested
expression it recurses, which is what this same function does on those
cases). For a BinaryOp both operands are evaluated first, as in the
source; AND/OR then return one of the operand values by truthiness.
Raised Python errors (TypeError on a mixed ordering, unknown column,
out-of-range column index, unmodelled float `str()`) are `.error`. -/
def evalExpr (schema : TableSchema) (row : List (Option PyVal)) :
    Expr → Except String (Option PyVal)
  | .lit v => pure v
  | .col name =>
    match schema.getColumnIndex name with
    | none => throw "Column not found"
    | some i =>
      match row[i]? with
      | none => throw "IndexError"
      | some v => pure v
  | .unNot e => do
    let v ← evalExpr schema row e
    pure (some (.pbool (!pyTruthy v)))
  | .bin op l r => do
    let lv ← evalExpr schema row l
    let rv ← evalExpr schema row r
    match op with
    | .beq => pure (some (.pbool (pyEqOpt lv rv)))
    | .bne => pure (some (.pbool (!pyEqOpt lv rv)))
    | .blt =>
      match lv, rv with
      | some x, some y =>
        match pyCompareVal x y with
        | none => throw "TypeError"
        | some o => pure (some (.pbool (o = .lt)))
      | _, _ => pure (some (.pbool false))
    | .bgt =>
      match lv, rv with
      | some x, some y =>
        match pyCompareVal x y with
        | none => throw "TypeError"
        | some o => pure (some (.pbool (o = .gt)))
      | _, _ => pure (some (.pbool false))
    | .ble =>
      match lv, rv with
      | some x, some y =>
        match pyCompareVal x y with
        | none => throw "TypeError"
        | some o => pure (some (.pbool (o ≠ .gt)))
      | _, _ => pure (some (.pbool false))
    | .bge =>
      match lv, rv with
      | some x, some y =>
        match pyCompareVal x y with
        | none => throw "TypeError"
        | some o => pure (some (.pbool (o ≠ .lt)))
      | _, _ => pure (some (.pbool false))
    | .blike => do
      let ltext ← match lv with
        | none => pure ""
        | some v =>
          match pyStr v with
          | some s => pure s
          | none => throw "unmodelled str()"
      let rtext ← match rv with
        | none => pure "None"
        | some v =>
          match pyStr v with
          | some s => pure s
          | none => throw "unmodelled str()"
      pure (some (.pbool (likeMatch ltext rtext)))
    | .band => pure (if pyTruthy lv then rv else lv)
    | .bor => pure (if pyTruthy lv then lv else rv)

/-! ### Scan-method selection (executor._choose_scan_method /
_can_use_index) -/

/-- catalog.IndexMetadata (the fields scan selection uses). -/
structure IndexMeta where
  indexName : String
  tableName : String
  columns : List String
  uniqueFlag : Bool
deriving DecidableEq, Repr

/-- The operator list of _can_use_index: `['=', '<', '>', '<=', '>=']`
(note: `!=` is absent). -/
def isCmpOp : BOp → Bool
  | .beq | .blt | .bgt | .ble | .bge => true
  | _ => false

/-- The `indexed_columns` set of _choose_scan_method: the union of ALL
key columns of every index on the table (membership-equivalent list). -/
def indexedColumns (idxs : List IndexMeta) : List String :=
  idxs.foldl (fun acc m => acc ++ m.columns) []

/-- QueryExecutor._can_use_index. -/
def canUseIndex (e : Expr) (indexedCols : List String) : Bool :=
  match e with
  | .bin op (.col c) _ => isCmpOp op && indexedCols.contains c
  | _ => false

/-- QueryExecutor._choose_scan_method. -/
def chooseScanMethod (idxs : List IndexMeta) (whereE : Option Expr) : String :=
  match whereE with
  | none => "sequential"
  | some e => if canUseIndex e (indexedColumns idxs) then "index" else "sequential"

/-- Modelled from the claim's words, for comparison with the source's
`chooseScanMethod`: index scan exactly when the top of the tree is a
comparison whose left operand is a column reference on the FIRST key
column of some index. -/
def claimIndexScanCond (idxs : List IndexMeta) (e : Expr) : Bool :=
  match e with
  | .bin op (.col c) _ => isCmpOp op && idxs.any (fun m => m.columns.head? = some c)
  | _ => false

theorem mem_indexedColumns_aux (c : String) :
    ∀ (idxs : List IndexMeta) (acc : List String),
    c ∈ idxs.foldl (fun acc m => acc ++ m.columns) acc ↔
      (c ∈ acc ∨ ∃ m ∈ idxs, c ∈ m.columns) := by
  intro idxs
  induction idxs with
  | nil => intro acc; simp
  | cons m idxs ih =>
    intro acc
    rw [List.foldl_cons, ih]
    constructor
    · rintro (hacc | ⟨m', hm', hc⟩)
      · rcases List.mem_append.mp hacc with h | h
        · exact Or.inl h
        · exact Or.inr ⟨m, List.mem_cons_self m idxs, h⟩
      · exact Or.inr ⟨m', List.mem_cons_of_mem m hm', hc⟩
    · rintro (hacc | ⟨m', hm', hc⟩)
      · exact Or.inl (List.mem_append.mpr (Or.inl hacc))
      · rcases List.mem_cons.mp hm' with rfl | h
        · exact Or.inl (List.mem_append.mpr (Or.inr hc))
        · exact Or.inr ⟨m', h, hc⟩

theorem mem_indexedColumns (idxs : List IndexMeta) (c : String) :
    (indexedColumns idxs).contains c = true ↔ ∃ m ∈ idxs, c ∈ m.columns := by
  have h : (indexedColumns idxs).contains c = true ↔ c ∈ indexedColumns idxs := by
    simp
  rw [h, indexedColumns, mem_indexedColumns_aux]
  simp

/-- C6 counterexample: on a composite index over (a, b), a WHERE of
`b = 5` makes the code pick an index scan although b is not the first
key column of any index, refuting the claimed characterisation. -/
theorem c6_scan_choice_counterexample :
    ¬ (chooseScanMethod [⟨"idx_ab", "t", ["a", "b"], false⟩]
        (some (.bin .beq (.col "b") (.lit (some (.pint 5))))) = "index"
      ↔ claimIndexScanCond [⟨"idx_ab", "t", ["a", "b"], false⟩]
        (.bin .beq (.col "b") (.lit (some (.pint 5)))) = true) := by
  decide

/-- C6 amended: the executor picks an index scan exactly when there is
a WHERE clause whose top node is a comparison (=, <, <=, >, >=) with a
column reference on the left naming ANY key column (first or not) of
some index on the table; in every other case it scans sequentially. -/
theorem c6_scan_choice_amended (idxs : List IndexMeta) (we : Option Expr) :
    (chooseScanMethod idxs we = "index" ↔
      ∃ e, we = some e ∧ ∃ op c rexp, e = .bin op (.col c) rexp ∧
        isCmpOp op = true ∧ ∃ m ∈ idxs, c ∈ m.columns) ∧
    (chooseScanMethod idxs we = "index" ∨ chooseScanMethod idxs we = "sequential") := by
  constructor
  · cases we with
    | none =>
      rw [chooseScanMethod]
      constructor
      · intro h; exact absurd h (by decide)
      · rintro ⟨e, he, _⟩; exact absurd he (by simp)
    | some e =>
      rw [chooseScanMethod]
      by_cases hc : canUseIndex e (indexedColumns idxs) = true
      · rw [if_pos hc]
        constructor
        · intro _
          refine ⟨e, rfl, ?_⟩
          match e, hc with
          | .bin op (.col c) rexp, hc =>
            rw [canUseIndex, Bool.and_eq_true] at hc
            exact ⟨op, c, rexp, rfl, hc.1, (mem_indexedColumns idxs c).mp hc.2⟩
        · intro _; rfl
      · rw [if_neg hc]
        constructor
        · intro h; exact absurd h (by decide)
        · rintro ⟨e', he', op, c, rexp, rfl, hop, hm⟩
          injection he' with he'
          subst he'
          exact absurd (by
            rw [canUseIndex, Bool.and_eq_true]
            exact ⟨hop, (mem_indexedColumns idxs c).mpr hm⟩) hc
  · cases we with
    | none => exact Or.inr rfl
    | some e =>
      rw [chooseScanMethod]
      by_cases hc : canUseIndex e (indexedColumns idxs) = true
      · rw [if_pos hc]; exact Or.inl rfl
      · rw [if_neg hc]; exact Or.inr rfl

/-! ### ORDER BY (executor._apply_order_by) -/

inductive SortDir
  | asc
  | desc
deriving DecidableEq, Repr

/-- A component of the Python sort key tuple: `float('inf')` /
`float('-inf')` sentinels, a numeric (int, float or negated value), or
a string. A bool value compares as its 0/1 numeric. -/
inductive KeyVal
  | kq (q : ℚ)
  | kstr (s : String)
  | kinf
  | kninf
deriving DecidableEq, Repr

/-- The per-column transform of `sort_key`: NULL becomes `inf` (ASC) or
`-inf` (DESC); for DESC the value is negated only when numeric
(`-value if isinstance(value, (int, float)) else value` — bools count
as numeric in Python), so strings keep their natural (ascending)
order. -/
def sortKeyVal (dir : SortDir) (v : Option PyVal) : KeyVal :=
  match v with
  | none => if dir = .asc then .kinf else .kninf
  | some (.pint n) => if dir = .asc then .kq n else .kq (-n)
  | some (.pfloat q) => if dir = .asc then .kq q else .kq (-q)
  | some (.pbool b) =>
    if dir = .asc then .kq (cond b 1 0) else .kq (-(cond b 1 0 : ℚ))
  | some (.pstr s) => .kstr s

/-- Python comparison of key components; `none` models the TypeError of
comparing a string with a number or an infinity sentinel. -/
def compareKeyVal : KeyVal → KeyVal → Option Ordering
  | .kq x, .kq y => some (if x < y then .lt else if y < x then .gt else .eq)
  | .kstr s, .kstr t =>
    some (if strLt s t then .lt else if strLt t s then .gt else .eq)
  | .kq _, .kinf => some .lt
  | .kinf, .kq _ => some .gt
  | .kq _, .kninf => some .gt
  | .kninf, .kq _ => some .lt
  | .kinf, .kinf => some .eq
  | .kninf, .kninf => some .eq
  | .kinf, .kninf => some .gt
  | .kninf, .kinf => some .lt
  | _, _ => none

/-- Python tuple comparison of sort keys (pairwise, first difference
decides; a TypeError propagates). -/
def compareKeyList : List KeyVal → List KeyVal → Option Ordering
  | [], [] => some .eq
  | [], _ :: _ => some .lt
  | _ :: _, [] => some .gt
  | a :: as, b :: bs =>
    match compareKeyVal a b with
    | none => none
    | some .eq => compareKeyList as bs
    | some o => some o

/-- Stable insertion into a sorted list: the new element goes after
every element not greater than it (Python `sorted` is stable; on a
totally comparable key set a stable sort's output is unique). -/
def insertSortedBy {α : Type} (cmpf : α → α → Option Ordering) (x : α) :
    List α → Option (List α)
  | [] => some [x]
  | y :: ys =>
    match cmpf x y with
    | none => none
    | some .lt => some (x :: y :: ys)
    | some _ => (insertSortedBy cmpf x ys).map (y :: ·)

/-- QueryExecutor._apply_order_by: compute each row's sort key, then
sort ascending by Python tuple comparison; `none` models a raised
error (unknown column, out-of-range index, or TypeError during a
comparison). -/
def applyOrderBy (schema : TableSchema) (rows : List (List (Option PyVal)))
    (orderBy : List (String × SortDir)) :
    Option (List (List (Option PyVal))) := do
  let keyed ← rows.mapM (fun r => do
    let key ← orderBy.mapM (fun cd => do
      let i ← schema.getColumnIndex cd.1
      let v ← r[i]?
      pure (sortKeyVal cd.2 v))
    pure (r, key))
  let sorted ← keyed.foldlM
    (fun acc x => insertSortedBy (fun a b => compareKeyList a.2 b.2) x acc) []
  pure (sorted.map (·.1))

/-- C7: the claim requires `ORDER BY name DESC` over TEXT values 'a',
'b' to return them in descending order ('b' first); the code's
sign-flip trick only negates numeric keys, leaves string keys
untouched, and therefore returns the rows in ASCENDING order. This
theorem evaluates the code at that failing input. -/
theorem c7_orderby_desc_text_bug :
    applyOrderBy ⟨"t", [⟨"name", .text, true, false⟩], ["name"]⟩
      [[some (.pstr "a")], [some (.pstr "b")]] [("name", .desc)]
      = some [[some (.pstr "a")], [some (.pstr "b")]] := by
  decide

/-! ### NULL comparison semantics (claim C8) -/

/-- C8 counterexample: the claim says every comparison with a NULL
operand evaluates to false, but `a != 5` on a row whose column a is
NULL evaluates to TRUE (`None != 5` in Python; the source's `!=` branch
has no NULL guard). -/
theorem c8_null_comparison_counterexample :
    evalExpr ⟨"t", [⟨"a", .int, true, false⟩], ["a"]⟩ [none]
      (.bin .bne (.col "a") (.lit (some (.pint 5))))
      = .ok (some (.pbool true)) := rfl

/-- C8 amended: only the four ordered comparisons <, >, <=, >= are
NULL-guarded to false; `=` is Python equality, so NULL = NULL is true
and NULL = v false for non-NULL v, and `!=` is its complement (true
when exactly one operand is NULL, false for NULL != NULL). -/
theorem c8_null_comparison_amended (schema : TableSchema)
    (row : List (Option PyVal)) (a b : Option PyVal) :
    (a = none ∨ b = none →
      evalExpr schema row (.bin .blt (.lit a) (.lit b)) = .ok (some (.pbool false)) ∧
      evalExpr schema row (.bin .bgt (.lit a) (.lit b)) = .ok (some (.pbool false)) ∧
      evalExpr schema row (.bin .ble (.lit a) (.lit b)) = .ok (some (.pbool false)) ∧
      evalExpr schema row (.bin .bge (.lit a) (.lit b)) = .ok (some (.pbool false))) ∧
    evalExpr schema row (.bin .beq (.lit none) (.lit none)) = .ok (some (.pbool true)) ∧
    evalExpr schema row (.bin .bne (.lit none) (.lit none)) = .ok (some (.pbool false)) ∧
    (∀ v : PyVal,
      evalExpr schema row (.bin .beq (.lit none) (.lit (some v))) = .ok (some (.pbool false)) ∧
      evalExpr schema row (.bin .beq (.lit (some v)) (.lit none)) = .ok (some (.pbool false)) ∧
      evalExpr schema row (.bin .bne (.lit none) (.lit (some v))) = .ok (some (.pbool true)) ∧
      evalExpr schema row (.bin .bne (.lit (some v)) (.lit none)) = .ok (some (.pbool true))) := by
  refine ⟨?_, rfl, rfl, ?_⟩
  · rintro (rfl | rfl)
    · cases b with
      | none => exact ⟨rfl, rfl, rfl, rfl⟩
      | some v => exact ⟨rfl, rfl, rfl, rfl⟩
    · cases a with
      | none => exact ⟨rfl, rfl, rfl, rfl⟩
      | some v => exact ⟨rfl, rfl, rfl, rfl⟩
  · intro v
    exact ⟨rfl, rfl, rfl, rfl⟩

/-- Witness for C8's amended statement at a NULL left operand and the
literal 5. -/
theorem c8_null_comparison_amended_witness :
    ((none : Option PyVal) = none ∨ (some (PyVal.pint 5) : Option PyVal) = none) ∧
    evalExpr ⟨"t", [⟨"a", .int, true, false⟩], ["a"]⟩ []
      (.bin .blt (.lit none) (.lit (some (.pint 5)))) = .ok (some (.pbool false)) :=
  ⟨Or.inl rfl,
   ((c8_null_comparison_amended ⟨"t", [⟨"a", .int, true, false⟩], ["a"]⟩ []
      none (some (.pint 5))).1 (Or.inl rfl)).1⟩

/-! ### INSERT execution (executor.QueryExecutor.execute_insert)

The executor slice the remaining claims need: a single table whose
indexes are single-column INT indexes (the pkey index first, in catalog
order). Records are serialized with `Tuple.serialize`; index keys are
extracted by column position (`_extract_key` on one key column). -/

deriving instance DecidableEq for Except

/-- executor table handle: schema, heap file, per-index (key column
position, B-tree), and the table statistics. -/
structure ExecTable where
  schema : TableSchema
  heap : HeapFile
  indexes : List (Nat × BTreeIndex Int)
  stats : TableStatistics
deriving DecidableEq, Repr

/-- _extract_key for a single INT key column. -/
def extractIntKey (values : List (Option SVal)) (col : Nat) : Option Int :=
  match values[col]? with
  | some (some (.vint n)) => some n
  | _ => none

/-- The index-update loop of execute_insert: insert (key, ctid) into
each index in catalog order; on a ValueError from an index insert,
delete the tuple from the heap and re-raise. Returns the statement
result, the table's indexes (entries added before a failure are kept,
as in the source, which only reverses the heap) and the heap. -/
def insertIndexLoop (ctid : Nat × Nat) (values : List (Option SVal)) :
    List (Nat × BTreeIndex Int) → HeapFile →
    Except String Unit × List (Nat × BTreeIndex Int) × HeapFile
  | [], heap => (.ok (), [], heap)
  | (col, idx) :: rest, heap =>
    match extractIntKey values col with
    | none => (.error "key extraction failed", (col, idx) :: rest, heap)
    | some k =>
      match BTreeIndex.insert intLt intTrunc idx k ctid with
      | .error e =>
        match heap.deleteTuple ctid with
        | some heap' => (.error e, (col, idx) :: rest, heap')
        | none => (.error e, (col, idx) :: rest, heap)
      | .ok idx' =>
        match insertIndexLoop ctid values rest heap with
        | (r, rest', heap') => (r, (col, idx') :: rest', heap')

/-- QueryExecutor.execute_insert: validate NOT NULL, check primary-key
uniqueness through the pkey index, insert into the heap, then update
every index (reversing the heap insert if an index insert fails), and
on success bump the row and modification counters. Returns the
statement result and the table state after the statement (exceptions
propagate, mutations made before the raise persist). -/
def executeInsert (t : ExecTable) (values : List (Option SVal)) :
    Except String Unit × ExecTable :=
  if values.length ≠ t.schema.columns.length then
    (.error "Value count does not match column count", t)
  else if (t.schema.columns.zip values).any (fun cv => !cv.1.nullable && cv.2.isNone) then
    (.error "Column cannot be NULL", t)
  else
    match t.indexes with
    | [] => (.error "Primary key index does not exist", t)
    | (pkCol, pkIdx) :: _ =>
      match extractIntKey values pkCol with
      | none => (.error "key extraction failed", t)
      | some pkVal =>
        if (BTreeIndex.search intLt intTrunc pkIdx pkVal).isSome then
          (.error "Duplicate primary key", t)
        else
          match Tuple.serialize t.schema values with
          | none => (.error "serialization failed", t)
          | some data =>
            match t.heap.insertTuple data with
            | none => (.error "heap insert failed", t)
            | some (heap, ctid) =>
              match insertIndexLoop ctid values t.indexes heap with
              | (.error e, idxs', heap') =>
                (.error e, { t with heap := heap', indexes := idxs' })
              | (.ok _, idxs', heap') =>
                (.ok (), { t with
                  heap := heap',
                  indexes := idxs',
                  stats := { t.stats with
                    rowCount := t.stats.rowCount + 1,
                    modificationCount := t.stats.modificationCount + 1 } })

/-- The C1 scenario's table: columns (id INT NOT NULL PRIMARY KEY,
u INT NOT NULL UNIQUE), with the pkey index on id and a unique
secondary index on u. -/
def c1T0 : ExecTable :=
  { schema := ⟨"t", [⟨"id", .int, false, false⟩, ⟨"u", .int, false, true⟩], ["id"]⟩,
    heap := HeapFile.create,
    indexes := [(0, BTreeIndex.create Int true), (1, BTreeIndex.create Int true)],
    stats := ⟨0, 0, 0, 0⟩ }

/-- State after INSERT (1, 5). -/
def c1T1 : ExecTable := (executeInsert c1T0 [some (.vint 1), some (.vint 5)]).2

/-- State after the failing INSERT (2, 5): the pkey insert of key 2
succeeds before the unique index on u raises. -/
def c1T2 : ExecTable := (executeInsert c1T1 [some (.vint 2), some (.vint 5)]).2

/-- C1 counterexample: after INSERT (1,5) succeeds and INSERT (2,5)
fails on the unique secondary index, the statement is over — yet the
pkey index still maps key 2 to ctid (0, 24) while the heap read of
(0, 24) is not-found (the tuple was tombstoned by the reversal). So
between statements a ctid stored in an index does NOT always refer to
a live tuple, and heap and indexes DO disagree after an index-insert
failure. -/
theorem c1_ctid_liveness_counterexample :
    (executeInsert c1T0 [some (.vint 1), some (.vint 5)]).1 = .ok () ∧
    (executeInsert c1T1 [some (.vint 2), some (.vint 5)]).1
      = .error "Duplicate key violation: key already exists in unique index" ∧
    (c1T2.indexes.head?.map (fun ci => BTreeIndex.search intLt intTrunc ci.2 2))
      = some (some (0, 24)) ∧
    c1T2.heap.readTupleData (0, 24) = none := by
  refine ⟨by decide, by decide, by decide, by decide⟩

/-- C1 amended: when the index-update loop of execute_insert fails, the
heap insert is indeed reversed — the final heap is the original heap
with the new ctid tombstoned (or, for failures before any index
insert / in the compensating delete itself, the heap left untouched);
entries already added to earlier indexes in the same statement are NOT
removed (see the counterexample), and VACUUM compacts pages without
rewriting index entries. -/
theorem c1_heap_insert_reversed (ctid : Nat × Nat) (values : List (Option SVal)) :
    ∀ (idxs : List (Nat × BTreeIndex Int)) (heap : HeapFile)
      (e : String) (idxs' : List (Nat × BTreeIndex Int)) (heap' : HeapFile),
    insertIndexLoop ctid values idxs heap = (.error e, idxs', heap') →
    heap' = heap ∨ heap.deleteTuple ctid = some heap' := by
  intro idxs
  induction idxs with
  | nil =>
    intro heap e idxs' heap' h
    rw [insertIndexLoop] at h
    injection h with h1 h2
    exact absurd h1 (by simp)
  | cons ci rest ih =>
    intro heap e idxs' heap' h
    obtain ⟨col, idx⟩ := ci
    rw [insertIndexLoop] at h
    cases hk : extractIntKey values col with
    | none =>
      rw [hk] at h
      injection h with h1 h2
      injection h2 with h2a h2b
      exact Or.inl h2b.symm
    | some k =>
      simp only [hk] at h
      cases hins : BTreeIndex.insert intLt intTrunc idx k ctid with
      | error msg =>
        simp only [hins] at h
        cases hdel : heap.deleteTuple ctid with
        | none =>
          simp only [hdel] at h
          injection h with h1 h2
          injection h2 with h2a h2b
          exact Or.inl h2b.symm
        | some heap2 =>
          simp only [hdel] at h
          injection h with h1 h2
          injection h2 with h2a h2b
          exact Or.inr (by rw [h2b])
      | ok idx' =>
        simp only [hins] at h
        rcases hx : insertIndexLoop ctid values rest heap with ⟨r, rest2, heap2⟩
        simp only [hx] at h
        injection h with h1 h2
        injection h2 with h2a h2b
        subst h1
        subst h2b
        exact ih heap e rest2 heap2 hx

/-- Witness for C1's amended reversal statement at the concrete failing
scenario (the heap state just after the heap insert of record (2,5)). -/
theorem c1_heap_insert_reversed_witness :
    insertIndexLoop (0, 24) [some (.vint 2), some (.vint 5)] c1T1.indexes
      (HeapFile.mk
        [Page.mk 0 [(16, [1, 0, 0, 0, 5, 0, 0, 0]), (24, [2, 0, 0, 0, 5, 0, 0, 0])] 8160 0]
        1 [(0, 8160)])
      = (.error "Duplicate key violation: key already exists in unique index",
         c1T2.indexes, c1T2.heap) ∧
    (c1T2.heap = HeapFile.mk
        [Page.mk 0 [(16, [1, 0, 0, 0, 5, 0, 0, 0]), (24, [2, 0, 0, 0, 5, 0, 0, 0])] 8160 0]
        1 [(0, 8160)] ∨
      (HeapFile.mk
        [Page.mk 0 [(16, [1, 0, 0, 0, 5, 0, 0, 0]), (24, [2, 0, 0, 0, 5, 0, 0, 0])] 8160 0]
        1 [(0, 8160)]).deleteTuple (0, 24) = some c1T2.heap) :=
  ⟨by decide,
   c1_heap_insert_reversed (0, 24) [some (.vint 2), some (.vint 5)]
     c1T1.indexes
     (HeapFile.mk
       [Page.mk 0 [(16, [1, 0, 0, 0, 5, 0, 0, 0]), (24, [2, 0, 0, 0, 5, 0, 0, 0])] 8160 0]
       1 [(0, 8160)])
     "Duplicate key violation: key already exists in unique index"
     c1T2.indexes c1T2.heap (by decide)⟩

/-! ### Transactions (claim C4)

The executor in the repository snapshot has no BEGIN/COMMIT/ROLLBACK
branch: `QueryExecutor.execute` raises "Unknown command type" for the
parser's Begin/Commit/Rollback command records, although the parser
produces them and tests/test_phase2.py exercises them (including
`executor.in_transaction`). The transaction machinery that decides
this claim is repository code missing from src/, so it is modelled
from the spec below. -/

/-- Modelled from the spec: the mutating statements staged inside
`BEGIN … COMMIT` (§4.5 Transactions); the executor applies changes in
place while recording compensating actions. -/
inductive TxOp (Row : Type)
  | insertRow (table : String) (row : Row)
  | deleteRow (table : String) (ctid : Nat)
  | updateRow (table : String) (ctid : Nat) (newRow : Row)
deriving DecidableEq, Repr

/-- Modelled from the spec: the undo log as a sequence of tagged
compensation records — "deletes for inserts, reinserts for deletes,
old-values replacement for updates" (§4.5, §9) — applied in LIFO
order. -/
inductive UndoRec (Row : Type)
  | undoInsert (table : String) (ctid : Nat)
  | undoDelete (table : String) (ctid : Nat) (row : Row)
  | undoUpdate (table : String) (ctid : Nat) (oldRow : Row)
deriving DecidableEq, Repr

/-- Modelled from the spec: the catalog's tables, each a heap keyed by
ctid (a tombstone is `none`, matching delete-by-tombstoning in §4.2). -/
abbrev DBState (Row : Type) : Type := List (String × List (Nat × Option Row))

/-- Next ctid of a table: one past the largest in use (ctids are never
reused, §3). -/
def freshCtid {Row : Type} (tbl : List (Nat × Option Row)) : Nat :=
  tbl.foldr (fun e acc => max (e.1 + 1) acc) 0

def lookupTable {Row : Type} (db : DBState Row) (name : String) :
    Option (List (Nat × Option Row)) :=
  (db.find? (·.1 = name)).map (·.2)

def mapTable {Row : Type} (db : DBState Row) (name : String)
    (f : List (Nat × Option Row) → List (Nat × Option Row)) : DBState Row :=
  db.map (fun te => if te.1 = name then (te.1, f te.2) else te)

def setEntry {Row : Type} (tbl : List (Nat × Option Row)) (ctid : Nat)
    (v : Option Row) : List (Nat × Option Row) :=
  tbl.map (fun e => if e.1 = ctid then (ctid, v) else e)

def lookupEntry {Row : Type} (tbl : List (Nat × Option Row)) (ctid : Nat) :
    Option (Option Row) :=
  (tbl.find? (·.1 = ctid)).map (·.2)

/-- Modelled from the spec: apply one staged statement in place and
return its compensation records (a statement that touches nothing —
missing table or row — compensates with nothing). -/
def applyOp {Row : Type} (db : DBState Row) :
    TxOp Row → DBState Row × List (UndoRec Row)
  | .insertRow t r =>
    match lookupTable db t with
    | none => (db, [])
    | some tbl =>
      let c := freshCtid tbl
      (mapTable db t (fun tb => tb ++ [(c, some r)]), [.undoInsert t c])
  | .deleteRow t c =>
    match lookupTable db t with
    | none => (db, [])
    | some tbl =>
      match lookupEntry tbl c with
      | some (some r) =>
        (mapTable db t (fun tb => setEntry tb c none), [.undoDelete t c r])
      | _ => (db, [])
  | .updateRow t c r =>
    match lookupTable db t with
    | none => (db, [])
    | some tbl =>
      match lookupEntry tbl c with
      | some (some old) =>
        (mapTable db t (fun tb => setEntry tb c (some r)), [.undoUpdate t c old])
      | _ => (db, [])

/-- Modelled from the spec: replay one compensation record. -/
def applyUndo {Row : Type} (db : DBState Row) : UndoRec Row → DBState Row
  | .undoInsert t c => mapTable db t (fun tb => tb.filter (·.1 ≠ c))
  | .undoDelete t c r => mapTable db t (fun tb => setEntry tb c (some r))
  | .undoUpdate t c r => mapTable db t (fun tb => setEntry tb c (some r))

/-- Modelled from the spec: run the statements of a transaction from
the state at BEGIN, accumulating the undo log most-recent-first. -/
def execOps {Row : Type} (db : DBState Row) :
    List (TxOp Row) → DBState Row × List (UndoRec Row)
  | [] => (db, [])
  | op :: ops =>
    let s1 := applyOp db op
    let s2 := execOps s1.1 ops
    (s2.1, s2.2 ++ s1.2)

/-- Modelled from the spec: ROLLBACK replays the undo log in reverse
order of the original mutations (LIFO). -/
def rollback {Row : Type} (db : DBState Row) (log : List (UndoRec Row)) :
    DBState Row :=
  log.foldl applyUndo db

/-- Well-formedness of a database state: distinct table names and,
within each table, distinct ctids. -/
def WF {Row : Type} (db : DBState Row) : Prop :=
  (db.map (·.1)).Nodup ∧ ∀ te ∈ db, (te.2.map (·.1)).Nodup

theorem freshCtid_gt {Row : Type} (tbl : List (Nat × Option Row)) :
    ∀ e ∈ tbl, e.1 < freshCtid tbl := by
  induction tbl with
  | nil => intro e h; simp at h
  | cons x xs ih =>
    intro e he
    rcases List.mem_cons.mp he with rfl | hmem
    · rw [freshCtid, List.foldr_cons]
      omega
    · have := ih e hmem
      rw [freshCtid, List.foldr_cons]
      rw [freshCtid] at this
      omega

theorem mapTable_eq_self {Row : Type} (db : DBState Row) (name : String)
    (f : List (Nat × Option Row) → List (Nat × Option Row))
    (h : ∀ te ∈ db, te.1 = name → f te.2 = te.2) :
    mapTable db name f = db := by
  induction db with
  | nil => rfl
  | cons e es ih =>
    rw [mapTable, List.map_cons]
    have htail : mapTable es name f = es :=
      ih (fun te hte => h te (List.mem_cons_of_mem e hte))
    rw [mapTable] at htail
    rw [htail]
    by_cases he : e.1 = name
    · rw [if_pos he, h e (List.mem_cons_self e es) he]
    · rw [if_neg he]

theorem mapTable_mapTable {Row : Type} (db : DBState Row) (name : String)
    (f g : List (Nat × Option Row) → List (Nat × Option Row)) :
    mapTable (mapTable db name f) name g = mapTable db name (fun tb => g (f tb)) := by
  induction db with
  | nil => rfl
  | cons e es ih =>
    rw [mapTable, mapTable, mapTable, List.map_cons, List.map_cons, List.map_cons]
    rw [mapTable, mapTable, mapTable] at ih
    rw [ih]
    by_cases he : e.1 = name
    · rw [if_pos he]
      simp only [if_pos he]
    · rw [if_neg he]
      simp only [if_neg he]

theorem lookupTable_unique {Row : Type} :
    ∀ (db : DBState Row), (db.map (·.1)).Nodup →
    ∀ (name : String) (tbl : List (Nat × Option Row)),
    lookupTable db name = some tbl → ∀ te ∈ db, te.1 = name → te.2 = tbl := by
  intro db
  induction db with
  | nil => intro _ name tbl hl te hte; simp at hte
  | cons e es ih =>
    intro hnd name tbl hl te hte hname
    simp only [List.map_cons, List.nodup_cons] at hnd
    by_cases he : e.1 = name
    · have hpos : (fun (x : String × List (Nat × Option Row)) => decide (x.1 = name)) e = true := by
        simpa using he
      rw [lookupTable, List.find?_cons_of_pos es hpos] at hl
      simp at hl
      rcases List.mem_cons.mp hte with rfl | hmem
      · rw [← hl]
      · exfalso
        apply hnd.1
        rw [he, ← hname]
        exact List.mem_map_of_mem (·.1) hmem
    · have hneg : ¬ (fun (x : String × List (Nat × Option Row)) => decide (x.1 = name)) e = true := by
        simpa using he
      rw [lookupTable, List.find?_cons_of_neg es hneg] at hl
      rcases List.mem_cons.mp hte with rfl | hmem
      · exact absurd hname he
      · exact ih hnd.2 name tbl hl te hmem hname

theorem setEntry_setEntry {Row : Type} (tbl : List (Nat × Option Row))
    (c : Nat) (v w : Option Row) :
    setEntry (setEntry tbl c v) c w = setEntry tbl c w := by
  rw [setEntry, setEntry, setEntry, List.map_map]
  apply List.map_congr_left
  intro e _
  by_cases he : e.1 = c
  · simp [he]
  · simp [he]

theorem setEntry_eq_self {Row : Type} :
    ∀ (tbl : List (Nat × Option Row)), (tbl.map (·.1)).Nodup →
    ∀ (c : Nat) (v : Option Row), lookupEntry tbl c = some v →
    setEntry tbl c v = tbl := by
  intro tbl
  induction tbl with
  | nil => intro _ c v hl; simp [lookupEntry] at hl
  | cons e es ih =>
    obtain ⟨e1, e2⟩ := e
    intro hnd c v hl
    simp only [List.map_cons, List.nodup_cons] at hnd
    by_cases he : e1 = c
    · subst he
      rw [lookupEntry, List.find?_cons_of_pos es (by simp)] at hl
      simp at hl
      subst hl
      rw [setEntry, List.map_cons, if_pos (show ((e1 : Nat), e2).1 = e1 from rfl)]
      congr 1
      conv_rhs => rw [← List.map_id es]
      apply List.map_congr_left
      intro x hx
      rw [if_neg, id_eq]
      intro hxc
      exact hnd.1 (by rw [← hxc]; exact List.mem_map_of_mem (·.1) hx)
    · have hneg : ¬ (fun (x : Nat × Option Row) => decide (x.1 = c)) (e1, e2) = true := by
        simpa using he
      rw [lookupEntry, List.find?_cons_of_neg es hneg] at hl
      rw [setEntry, List.map_cons, if_neg (by simpa using he)]
      have htail := ih hnd.2 c v hl
      rw [setEntry] at htail
      rw [htail]

theorem filter_append_fresh {Row : Type} (tbl : List (Nat × Option Row))
    (c : Nat) (r : Option Row) (h : ∀ e ∈ tbl, e.1 ≠ c) :
    (tbl ++ [(c, r)]).filter (·.1 ≠ c) = tbl := by
  rw [List.filter_append]
  have h1 : tbl.filter (·.1 ≠ c) = tbl :=
    List.filter_eq_self.mpr (fun e he => by simpa using h e he)
  have h2 : ([((c : Nat), r)] : List (Nat × Option Row)).filter (·.1 ≠ c) = [] := by
    simp
  rw [h1, h2, List.append_nil]

theorem mapTable_names {Row : Type} (db : DBState Row) (name : String)
    (f : List (Nat × Option Row) → List (Nat × Option Row)) :
    (mapTable db name f).map (·.1) = db.map (·.1) := by
  rw [mapTable, List.map_map]
  apply List.map_congr_left
  intro te _
  by_cases he : te.1 = name
  · simp [he]
  · simp [he]

theorem setEntry_names {Row : Type} (tbl : List (Nat × Option Row))
    (c : Nat) (v : Option Row) :
    (setEntry tbl c v).map (·.1) = tbl.map (·.1) := by
  rw [setEntry, List.map_map]
  apply List.map_congr_left
  intro e _
  by_cases he : e.1 = c
  · simp [he]
  · simp [he]

theorem mem_mapTable {Row : Type} (db : DBState Row) (name : String)
    (f : List (Nat × Option Row) → List (Nat × Option Row))
    (te : String × List (Nat × Option Row)) (hte : te ∈ mapTable db name f) :
    te ∈ db ∨ ∃ te' ∈ db, te'.1 = name ∧ te = (te'.1, f te'.2) := by
  rw [mapTable] at hte
  obtain ⟨te', hte', heq⟩ := List.mem_map.mp hte
  by_cases he : te'.1 = name
  · rw [if_pos he] at heq
    exact Or.inr ⟨te', hte', he, heq.symm⟩
  · rw [if_neg he] at heq
    exact Or.inl (heq ▸ hte')

theorem WF_applyOp {Row : Type} (db : DBState Row) (op : TxOp Row)
    (h : WF db) : WF (applyOp db op).1 := by
  obtain ⟨hnames, htables⟩ := h
  have hkeys : ∀ (name : String)
      (f : List (Nat × Option Row) → List (Nat × Option Row)),
      (∀ te ∈ db, te.1 = name → ((f te.2).map (·.1)).Nodup) →
      WF (mapTable db name f) := by
    intro name f hf
    constructor
    · rw [mapTable_names]; exact hnames
    · intro te hte
      rcases mem_mapTable db name f te hte with hmem | ⟨te', hte', hname', rfl⟩
      · exact htables te hmem
      · exact hf te' hte' hname'
  cases op with
  | insertRow t r =>
    rw [applyOp]
    cases hl : lookupTable db t with
    | none => exact show WF db from ⟨hnames, htables⟩
    | some tbl =>
      show WF (mapTable db t (fun tb => tb ++ [(freshCtid tbl, some r)]))
      apply hkeys
      intro te hte hname
      have hcontent : te.2 = tbl := lookupTable_unique db hnames t tbl hl te hte hname
      rw [hcontent, List.map_append, List.nodup_append]
      refine ⟨hcontent ▸ htables te hte, by simp, ?_⟩
      intro a ha hb
      simp only [List.map_cons, List.map_nil, List.mem_singleton] at hb
      subst hb
      obtain ⟨e, he, heq⟩ := List.mem_map.mp ha
      have := freshCtid_gt tbl e he
      omega
  | deleteRow t c =>
    rw [applyOp]
    cases hl : lookupTable db t with
    | none => exact show WF db from ⟨hnames, htables⟩
    | some tbl =>
      show WF ((match lookupEntry tbl c with
        | some (some r) =>
          (mapTable db t (fun tb => setEntry tb c none), [UndoRec.undoDelete t c r])
        | _ => (db, [])).1)
      cases hle : lookupEntry tbl c with
      | none => exact show WF db from ⟨hnames, htables⟩
      | some v =>
        cases v with
        | none => exact show WF db from ⟨hnames, htables⟩
        | some r =>
          show WF (mapTable db t (fun tb => setEntry tb c none))
          apply hkeys
          intro te hte _
          rw [setEntry_names]
          exact htables te hte
  | updateRow t c r =>
    rw [applyOp]
    cases hl : lookupTable db t with
    | none => exact show WF db from ⟨hnames, htables⟩
    | some tbl =>
      show WF ((match lookupEntry tbl c with
        | some (some old) =>
          (mapTable db t (fun tb => setEntry tb c (some r)), [UndoRec.undoUpdate t c old])
        | _ => (db, [])).1)
      cases hle : lookupEntry tbl c with
      | none => exact show WF db from ⟨hnames, htables⟩
      | some v =>
        cases v with
        | none => exact show WF db from ⟨hnames, htables⟩
        | some old =>
          show WF (mapTable db t (fun tb => setEntry tb c (some r)))
          apply hkeys
          intro te hte _
          rw [setEntry_names]
          exact htables te hte

theorem rollback_applyOp {Row : Type} (db : DBState Row) (op : TxOp Row)
    (h : WF db) :
    rollback (applyOp db op).1 (applyOp db op).2 = db := by
  obtain ⟨hnames, htables⟩ := h
  cases op with
  | insertRow t r =>
    rw [applyOp]
    cases hl : lookupTable db t with
    | none => rfl
    | some tbl =>
      show rollback (mapTable db t (fun tb => tb ++ [(freshCtid tbl, some r)]))
        [UndoRec.undoInsert t (freshCtid tbl)] = db
      rw [rollback, List.foldl_cons, List.foldl_nil, applyUndo, mapTable_mapTable]
      apply mapTable_eq_self
      intro te hte hname
      have hcontent : te.2 = tbl := lookupTable_unique db hnames t tbl hl te hte hname
      rw [hcontent]
      apply filter_append_fresh
      intro e he
      have := freshCtid_gt tbl e he
      omega
  | deleteRow t c =>
    rw [applyOp]
    cases hl : lookupTable db t with
    | none => rfl
    | some tbl =>
      show rollback ((match lookupEntry tbl c with
        | some (some r) =>
          (mapTable db t (fun tb => setEntry tb c none), [UndoRec.undoDelete t c r])
        | _ => (db, [])).1) ((match lookupEntry tbl c with
        | some (some r) =>
          (mapTable db t (fun tb => setEntry tb c none), [UndoRec.undoDelete t c r])
        | _ => (db, [])).2) = db
      cases hle : lookupEntry tbl c with
      | none => rfl
      | some v =>
        cases v with
        | none => rfl
        | some r =>
          show rollback (mapTable db t (fun tb => setEntry tb c none))
            [UndoRec.undoDelete t c r] = db
          rw [rollback, List.foldl_cons, List.foldl_nil, applyUndo, mapTable_mapTable]
          apply mapTable_eq_self
          intro te hte hname
          have hcontent : te.2 = tbl := lookupTable_unique db hnames t tbl hl te hte hname
          rw [hcontent, setEntry_setEntry]
          exact setEntry_eq_self tbl (hcontent ▸ htables te hte) c (some r) hle
  | updateRow t c r =>
    rw [applyOp]
    cases hl : lookupTable db t with
    | none => rfl
    | some tbl =>
      show rollback ((match lookupEntry tbl c with
        | some (some old) =>
          (mapTable db t (fun tb => setEntry tb c (some r)), [UndoRec.undoUpdate t c old])
        | _ => (db, [])).1) ((match lookupEntry tbl c with
        | some (some old) =>
          (mapTable db t (fun tb => setEntry tb c (some r)), [UndoRec.undoUpdate t c old])
        | _ => (db, [])).2) = db
      cases hle : lookupEntry tbl c with
      | none => rfl
      | some v =>
        cases v with
        | none => rfl
        | some old =>
          show rollback (mapTable db t (fun tb => setEntry tb c (some r)))
            [UndoRec.undoUpdate t c old] = db
          rw [rollback, List.foldl_cons, List.foldl_nil, applyUndo, mapTable_mapTable]
          apply mapTable_eq_self
          intro te hte hname
          have hcontent : te.2 = tbl := lookupTable_unique db hnames t tbl hl te hte hname
          rw [hcontent, setEntry_setEntry]
          exact setEntry_eq_self tbl (hcontent ▸ htables te hte) c (some old) hle

/-- Concrete catalog used to witness the ROLLBACK property: one table
with two live rows. -/
def c4Db : DBState (List Int) :=
  [("accounts", [(1, some [100]), (2, some [200])])]

/-- Concrete transaction body used to witness the ROLLBACK property:
an UPDATE, an INSERT and a DELETE issued between BEGIN and ROLLBACK. -/
def c4Ops : List (TxOp (List Int)) :=
  [TxOp.updateRow "accounts" 1 [150],
   TxOp.insertRow "accounts" [300],
   TxOp.deleteRow "accounts" 2]

/-- C4: executing ROLLBACK after a BEGIN replays the undo log in
reverse (LIFO), leaving the state of every table in the catalog
identical to its state at the most recent BEGIN — in particular an
UPDATE issued between BEGIN and ROLLBACK is undone. Stated over the
spec-modelled transaction machinery (`applyOp`/`execOps`/`rollback`),
for every well-formed catalog and every sequence of staged mutations. -/
theorem c4_rollback_restores {Row : Type} (ops : List (TxOp Row)) :
    ∀ (db : DBState Row), WF db →
    rollback (execOps db ops).1 (execOps db ops).2 = db := by
  induction ops with
  | nil => intro db _; rfl
  | cons op ops ih =>
    intro db h
    rw [execOps]
    show rollback (execOps (applyOp db op).1 ops).1
      ((execOps (applyOp db op).1 ops).2 ++ (applyOp db op).2) = db
    rw [rollback, List.foldl_append]
    have h1 := ih (applyOp db op).1 (WF_applyOp db op h)
    rw [rollback] at h1
    rw [h1]
    have h2 := rollback_applyOp db op h
    rw [rollback] at h2
    exact h2

/-- Witness for C4: on the concrete two-row catalog, running the
UPDATE/INSERT/DELETE transaction body and then ROLLBACK restores the
exact initial state. -/
theorem c4_rollback_restores_witness :
    WF c4Db ∧ rollback (execOps c4Db c4Ops).1 (execOps c4Db c4Ops).2 = c4Db :=
  ⟨⟨by decide, by decide⟩, c4_rollback_restores c4Ops c4Db ⟨by decide, by decide⟩⟩

end DB
